import Mathlib

/-!
Verification of the centralized-directory P2P file-sharing service
(directory server, metadata store, peer node and framed JSON codec).

The Python sources are shallowly embedded: dynamic Python values that the
handlers inspect become the inductive `PyVal` (a message field that is
absent behaves exactly like one set to `None`, because the handlers only
ever use `dict.get`, so both are modelled by `PyVal.none`); the SQLite
store becomes a list of `FileEntry` rows with SQL equality (`sqlEq`,
under which NULL compares equal to nothing); sockets become explicit
event lists and byte-chunk lists.
-/

/-- A Python runtime value as far as the handlers inspect one:
`None`, a string, an integer or a boolean. -/
inductive PyVal where
  | none : PyVal
  | str : String → PyVal
  | int : Int → PyVal
  | bool : Bool → PyVal
deriving DecidableEq

/-- Python truthiness (`bool(v)`): `None`, `""`, `0` and `False` are falsy. -/
def truthy : PyVal → Bool
  | PyVal.none => false
  | PyVal.str s => s ≠ ""
  | PyVal.int n => n ≠ 0
  | PyVal.bool b => b

/-- Python `==` on the embedded values: `True == 1` and `False == 0` hold,
values of unrelated types compare unequal, `None` equals only `None`. -/
def pyEq : PyVal → PyVal → Bool
  | PyVal.none, PyVal.none => true
  | PyVal.str a, PyVal.str b => a = b
  | PyVal.int a, PyVal.int b => a = b
  | PyVal.bool a, PyVal.bool b => a = b
  | PyVal.int a, PyVal.bool b => a = (if b then 1 else 0)
  | PyVal.bool a, PyVal.int b => (if a then (1 : Int) else 0) = b
  | _, _ => false

/-- SQL `=` as SQLite/PostgreSQL evaluate it on bound Python parameters:
`NULL` is equal to nothing (not even `NULL`), booleans are adapted to the
integers 0/1, strings compare as text, and cross-type comparisons are
false. -/
def sqlEq : PyVal → PyVal → Bool
  | PyVal.str a, PyVal.str b => a = b
  | PyVal.int a, PyVal.int b => a = b
  | PyVal.bool a, PyVal.bool b => a = b
  | PyVal.int a, PyVal.bool b => a = (if b then 1 else 0)
  | PyVal.bool a, PyVal.int b => (if a then (1 : Int) else 0) = b
  | _, _ => false

/-- Python `str(v)` for the embedded values (used in reply messages). -/
def pyToString : PyVal → String
  | PyVal.none => "None"
  | PyVal.str s => s
  | PyVal.int n => toString n
  | PyVal.bool b => if b then "True" else "False"

/-- A wire message as the handlers see it: every field is read with
`message.get(key)`, which yields `None` when the key is absent, so a
missing field and an explicit `null` are both `PyVal.none`. -/
structure Msg where
  action : PyVal := PyVal.none
  hostname : PyVal := PyVal.none
  p2p_port : PyVal := PyVal.none
  lname : PyVal := PyVal.none
  fname : PyVal := PyVal.none
  file_size : PyVal := PyVal.none
  last_modified : PyVal := PyVal.none
  allow_overwrite : PyVal := PyVal.none
deriving DecidableEq

/-- A row of the `file_index` table
(`src/Assignment1/exe/database.py`, `src/Assignment1/database.py`). -/
structure FileEntry where
  fname : PyVal
  hostname : PyVal
  ip : PyVal
  port : PyVal
  lname : PyVal
  file_size : PyVal
  last_modified : PyVal
deriving DecidableEq

/-- The composite key `(fname, hostname, ip, port)` of the SQLite store
matching row `r` against entry `e`, with SQL equality semantics. -/
def sameKey (r e : FileEntry) : Bool :=
  sqlEq r.fname e.fname && sqlEq r.hostname e.hostname &&
    sqlEq r.ip e.ip && sqlEq r.port e.port

/-- The historical PostgreSQL key `(fname, hostname, ip, port, file_size,
last_modified)` (`src/Assignment1/database.py`). -/
def sameKey6 (r e : FileEntry) : Bool :=
  sameKey r e && sqlEq r.file_size e.file_size &&
    sqlEq r.last_modified e.last_modified

/-- `Database.get_entry` of `src/Assignment1/exe/database.py`: the first
row matching the four-column key (`SELECT ... LIMIT 1` in rowid order). -/
def get_entry (fname hostname ip port : PyVal) (s : List FileEntry) :
    Option FileEntry :=
  s.find? fun r =>
    sqlEq r.fname fname && sqlEq r.hostname hostname &&
      sqlEq r.ip ip && sqlEq r.port port

/-- `Database.register_file` of `src/Assignment1/exe/database.py`:
`INSERT ... ON CONFLICT(fname, hostname, ip, port) DO UPDATE` preceded by
an existence probe; yields the updated table and `"updated"` or
`"inserted"`.  (The `UNIQUE` constraint keeps at most one conflicting
row; on a table satisfying that invariant the `map` below updates
exactly the one matching row in place.) -/
def register_file (e : FileEntry) (s : List FileEntry) :
    List FileEntry × String :=
  if s.any fun r => sameKey r e then
    (s.map fun r =>
      if sameKey r e then
        { r with lname := e.lname, file_size := e.file_size,
                 last_modified := e.last_modified }
      else r, "updated")
  else (s ++ [e], "inserted")

/-- `Database.register_file` of `src/Assignment1/database.py` (PostgreSQL):
`INSERT ... ON CONFLICT (fname, hostname, ip, port, file_size,
last_modified) DO NOTHING RETURNING id`; yields the table and whether a
row was inserted. -/
def register_file_pg (e : FileEntry) (s : List FileEntry) :
    List FileEntry × Bool :=
  if s.any fun r => sameKey6 r e then (s, false) else (s ++ [e], true)

/-- Whether row `e` belongs to the peer identity `(hostname, ip, port)`
under SQL equality (the `WHERE` clause of `delete_entries_for_peer`). -/
def matchesPeer (hostname ip port : PyVal) (e : FileEntry) : Bool :=
  sqlEq e.hostname hostname && sqlEq e.ip ip && sqlEq e.port port

/-- `Database.delete_entries_for_peer`: removes every row of the peer
identity and returns the removed rows' logical names (the per-`fname`
counts of the Python dict are the multiplicities in this list). -/
def delete_entries_for_peer (hostname ip port : PyVal)
    (s : List FileEntry) : List FileEntry × List PyVal :=
  (s.filter fun e => !(matchesPeer hostname ip port e),
   (s.filter fun e => matchesPeer hostname ip port e).map (·.fname))

/-- SQLite comparison order on stored values: NULL sorts before numbers,
numbers before text; numbers by value (booleans adapted to 0/1), text by
code points. -/
def pyCmp : PyVal → PyVal → Ordering
  | PyVal.none, PyVal.none => Ordering.eq
  | PyVal.none, _ => Ordering.lt
  | _, PyVal.none => Ordering.gt
  | PyVal.str a, PyVal.str b => compare a.data b.data
  | PyVal.str _, _ => Ordering.gt
  | _, PyVal.str _ => Ordering.lt
  | a, b =>
    compare (match a with | PyVal.int n => n | PyVal.bool t => if t then 1 else 0 | _ => 0)
      (match b with | PyVal.int n => n | PyVal.bool t => if t then 1 else 0 | _ => 0)

/-- `ORDER BY hostname, ip, port` on rows. -/
def entryLe (a b : FileEntry) : Bool :=
  ((pyCmp a.hostname b.hostname).then
    ((pyCmp a.ip b.ip).then (pyCmp a.port b.port))) ≠ Ordering.gt

/-- Insertion into a sorted list (the model of the SQL sort). -/
def orderedInsert (le : FileEntry → FileEntry → Bool) (a : FileEntry) :
    List FileEntry → List FileEntry
  | [] => [a]
  | b :: l => if le a b then a :: b :: l else b :: orderedInsert le a l

/-- Deterministic sort used to model `ORDER BY`. -/
def insertionSort (le : FileEntry → FileEntry → Bool) :
    List FileEntry → List FileEntry
  | [] => []
  | a :: l => orderedInsert le a (insertionSort le l)

/-- `Database.list_peers_for_file`: the rows advertising `fname`, ordered
by `(hostname, ip, port)`. -/
def list_peers_for_file (fname : PyVal) (s : List FileEntry) :
    List FileEntry :=
  insertionSort entryLe (s.filter fun e => sqlEq e.fname fname)

theorem mem_orderedInsert {le : FileEntry → FileEntry → Bool}
    {a x : FileEntry} {l : List FileEntry} :
    x ∈ orderedInsert le a l ↔ x = a ∨ x ∈ l := by
  induction l with
  | nil => simp [orderedInsert]
  | cons b l ih =>
    by_cases h : le a b = true
    · simp [orderedInsert, h]
    · simp [orderedInsert, h, ih]
      tauto

theorem mem_insertionSort {le : FileEntry → FileEntry → Bool}
    {x : FileEntry} {l : List FileEntry} :
    x ∈ insertionSort le l ↔ x ∈ l := by
  induction l with
  | nil => simp [insertionSort]
  | cons a l ih => simp [insertionSort, mem_orderedInsert, ih]

/-! ## Directory server (`src/Assignment1/server.py`, with the publish
handler shared verbatim by `src/Assignment1/exe/server_impl.py`) -/

/-- One `{"ip": ..., "port": ...}` record of the `active_clients` table. -/
structure ActInfo where
  ip : PyVal
  port : PyVal
deriving DecidableEq

/-- `active_clients`: a dict keyed by the self-reported hostname, each key
holding the list of `(ip, port)` records of its live sessions (insertion
order, as a Python dict). -/
def ActiveTable := List (PyVal × List ActInfo)

/-- Server state visible to one session handler: the active-client table
and the metadata store. -/
structure SrvState where
  active : List (PyVal × List ActInfo)
  store : List FileEntry
deriving DecidableEq

/-- The hello bookkeeping: `if hostname not in active: active[hostname] = []`
then `active[hostname].append(info)`. -/
def addActive (hostname : PyVal) (info : ActInfo)
    (t : List (PyVal × List ActInfo)) : List (PyVal × List ActInfo) :=
  if t.any fun kv => pyEq kv.1 hostname then
    t.map fun kv => if pyEq kv.1 hostname then (kv.1, kv.2 ++ [info]) else kv
  else t ++ [(hostname, [info])]

/-- The teardown bookkeeping of the `finally` block: filter the hostname's
list down to records whose `(ip, port)` differ from the leaving session,
and drop the hostname key when the list becomes empty. -/
def removeActive (hostname ip port : PyVal)
    (t : List (PyVal × List ActInfo)) : List (PyVal × List ActInfo) :=
  (t.map fun kv =>
      if pyEq kv.1 hostname then
        (kv.1, kv.2.filter fun i => !(pyEq i.ip ip && pyEq i.port port))
      else kv).filter
    fun kv => !(pyEq kv.1 hostname && kv.2.isEmpty)

/-- A reply object sent on the control stream.  Fields the Python dict
does not carry are `Option.none` / `""` defaults; the claims only inspect
fields the corresponding reply actually carries. -/
structure RespA where
  status : String
  message : String := ""
  existing_lname : Option PyVal := Option.none
  result : Option String := Option.none
  peer_list : Option (List FileEntry) := Option.none
deriving DecidableEq

/-- The publish branch of the READY dispatch
(`src/Assignment1/server.py:73-143` and the identical
`ExecutableServer._handle_publish_action` of
`src/Assignment1/exe/server_impl.py:98-169`), against the SQLite store
(`src/Assignment1/exe/database.py`, which is the layer defining
`get_entry`). -/
def handle_publish_action (client_hostname client_ip client_p2p_port : PyVal)
    (m : Msg) (store : List FileEntry) : RespA × List FileEntry :=
  let lname := m.lname
  let fname := m.fname
  let allow_overwrite := truthy m.allow_overwrite
  if !truthy lname || !truthy fname then
    ({ status := "error", message := "Missing lname or fname" }, store)
  else
    let peer_info : FileEntry :=
      { hostname := client_hostname, ip := client_ip, port := client_p2p_port,
        lname := lname, file_size := m.file_size,
        last_modified := m.last_modified, fname := fname }
    let existing_entry :=
      if truthy client_hostname && truthy client_ip && truthy client_p2p_port
      then get_entry fname client_hostname client_ip client_p2p_port store
      else Option.none
    match existing_entry with
    | Option.some e =>
      let same_file_path := pyEq e.lname lname
      let metadata_matches := same_file_path &&
        pyEq e.file_size m.file_size && pyEq e.last_modified m.last_modified
      if metadata_matches then
        ({ status := "unchanged",
           message := "File " ++ pyToString fname ++
             " is already up to date for this client." }, store)
      else if !same_file_path && !allow_overwrite then
        ({ status := "conflict",
           message := "Alias " ++ pyToString fname ++
             " is already published for this client.",
           existing_lname := Option.some e.lname }, store)
      else
        let r := register_file peer_info store
        ({ status := "updated",
           message := "File " ++ pyToString fname ++ " metadata updated.",
           result := Option.some r.2 }, r.1)
    | Option.none =>
      let r := register_file peer_info store
      ({ status := "created",
         message := "File " ++ pyToString fname ++ " published successfully",
         result := Option.some r.2 }, r.1)

/-- One iteration of the READY loop: dispatch on `action`
(`src/Assignment1/server.py:68-163`).  Every branch sends exactly one
reply. -/
def dispatchA (client_hostname client_ip client_p2p_port : PyVal) (m : Msg)
    (st : SrvState) : SrvState × RespA :=
  if pyEq m.action (PyVal.str "publish") then
    let r := handle_publish_action client_hostname client_ip client_p2p_port
      m st.store
    ({ st with store := r.2 }, r.1)
  else if pyEq m.action (PyVal.str "fetch") then
    if !truthy m.fname then
      (st, { status := "error", message := "Missing fname" })
    else
      (st, { status := "success",
             peer_list := Option.some (list_peers_for_file m.fname st.store) })
  else if pyEq m.action (PyVal.str "ping") then
    (st, { status := "success", message := "pong" })
  else
    (st, { status := "error", message := "Invalid action" })

/-- The READY receive loop.  An event is `some m` (a decoded message) or
`none` (`receive_message` returned `None`: the stream closed or errored),
which breaks the loop; the list ending models the other loop exits
(shutdown flag, exception), after which control likewise reaches the
`finally` block. -/
def runReady (client_hostname client_ip client_p2p_port : PyVal) :
    List (Option Msg) → SrvState → SrvState × List RespA
  | [], st => (st, [])
  | Option.none :: _, st => (st, [])
  | Option.some m :: rest, st =>
    let r := dispatchA client_hostname client_ip client_p2p_port m st
    let t := runReady client_hostname client_ip client_p2p_port rest r.1
    (t.1, r.2 :: t.2)

/-- The reply to a malformed first message. -/
def errHello : RespA := { status := "error", message := "Expected hello message" }

/-- The handshake acknowledgement. -/
def helloOk : RespA := { status := "success", message := "Hello from server!" }

/-- `Server.handle_client` (`src/Assignment1/server.py:36-196`) as a
function of the decoded first message (`none` when `receive_message`
returned `None` or a falsy value), the later receive events and the
starting state; yields the final state and the replies sent.  The
`finally` teardown runs only when both `client_hostname` and
`client_p2p_port` are truthy, exactly as the guard at line 169. -/
def handle_client (client_ip : PyVal) (intro : Option Msg)
    (events : List (Option Msg)) (st : SrvState) : SrvState × List RespA :=
  match intro with
  | Option.none => (st, [errHello])
  | Option.some m =>
    if !pyEq m.action (PyVal.str "hello") then (st, [errHello])
    else
      let client_hostname := m.hostname
      let client_p2p_port := m.p2p_port
      let client_info : ActInfo := { ip := client_ip, port := client_p2p_port }
      let st1 : SrvState :=
        { st with active := addActive client_hostname client_info st.active }
      let run := runReady client_hostname client_ip client_p2p_port events st1
      let st3 :=
        if truthy client_hostname && truthy client_p2p_port then
          { active := removeActive client_hostname client_ip client_p2p_port
              run.1.active,
            store := (delete_entries_for_peer client_hostname client_ip
              client_p2p_port run.1.store).1 }
        else run.1
      (st3, helloOk :: run.2)

/-! ## The earlier in-memory server (`src/server.py`) -/

/-- A peer record of the earlier server's JSON-file index
(`peer_info` at `src/server.py:78`). -/
structure OldPeer where
  hostname : PyVal
  ip : PyVal
  port : PyVal
  lname : PyVal
deriving DecidableEq

/-- A reply of the earlier server. -/
structure RespO where
  status : String
  message : Option String := Option.none
  peer_list : Option (List OldPeer) := Option.none
deriving DecidableEq

/-- `file_index.get(fname, [])` on the dict modelled as an association
list keyed by Python equality. -/
def oldLookup (fname : PyVal) : List (PyVal × List OldPeer) → List OldPeer
  | [] => []
  | kv :: rest => if pyEq kv.1 fname then kv.2 else oldLookup fname rest

/-- `if fname not in file_index: file_index[fname] = []` followed by
`file_index[fname].append(peer_info)`. -/
def oldAppend (fname : PyVal) (p : OldPeer) (idx : List (PyVal × List OldPeer)) :
    List (PyVal × List OldPeer) :=
  if idx.any fun kv => pyEq kv.1 fname then
    idx.map fun kv => if pyEq kv.1 fname then (kv.1, kv.2 ++ [p]) else kv
  else idx ++ [(fname, [p])]

/-- One iteration of the READY loop of `src/server.py:64-103`, returning
the updated index and the list of replies sent for this one request, in
send order.  In the fetch branch a missing `fname` sends the error reply
but does not `continue`, so the success reply below it is sent as well
(`src/server.py:88-99`); the publish branch by contrast has the
`continue` (line 77). -/
def oldDispatch (client_hostname client_ip client_p2p_port : PyVal) (m : Msg)
    (idx : List (PyVal × List OldPeer)) :
    List (PyVal × List OldPeer) × List RespO :=
  if pyEq m.action (PyVal.str "publish") then
    if !truthy m.lname || !truthy m.fname then
      (idx, [{ status := "error", message := Option.some "Missing lname or fname" }])
    else
      let peer_info : OldPeer :=
        { hostname := client_hostname, ip := client_ip,
          port := client_p2p_port, lname := m.lname }
      (oldAppend m.fname peer_info idx,
       [{ status := "success",
          message := Option.some ("File " ++ pyToString m.fname ++
            " published successfully") }])
  else if pyEq m.action (PyVal.str "fetch") then
    let onMissing : List RespO :=
      if !truthy m.fname then
        [{ status := "error", message := Option.some "Missing fname" }]
      else []
    (idx, onMissing ++
      [{ status := "success", peer_list := Option.some (oldLookup m.fname idx) }])
  else
    (idx, [{ status := "error", message := Option.some "Invalid action" }])

/-! ## Peer node, serving side (`src/client.py:51-77`) -/

/-- The serving worker's read loop: `file.read(4096)` until empty, one
`sendall` per chunk.  The fuel is the byte count, enough because every
iteration consumes at least one byte. -/
def fileChunks : Nat → List Nat → List (List Nat)
  | 0, _ => []
  | _, [] => []
  | fuel + 1, bs => bs.take 4096 :: fileChunks fuel (bs.drop 4096)

/-- The chunks sent for a file with the given contents. -/
def readChunks (bs : List Nat) : List (List Nat) := fileChunks bs.length bs

/-- `Client._handle_peer`: decode one framed message; on
`{action: "get_file", lname}` with a truthy path that exists, stream the
file in 4 KiB chunks; otherwise close without writing.  The filesystem is
a partial map from paths to byte contents (`os.path.exists` = membership);
a `lname` that is not a string names no path.  Returns the payload chunks
written to the socket. -/
def handle_peer (message : Option Msg) (fs : String → Option (List Nat)) :
    List (List Nat) :=
  match message with
  | Option.none => []
  | Option.some m =>
    if pyEq m.action (PyVal.str "get_file") then
      match m.lname with
      | PyVal.str p =>
        if p = "" then []
        else
          match fs p with
          | Option.some content => readChunks content
          | Option.none => []
      | _ => []
    else []

/-! ## Launcher identity allocation
(`src/Submission/ASS1_MrGold/exe/client_exe.py:79-90`) -/

/-- `_index_to_port`: `AUTO_PORT_START + (index - 1) * AUTO_PORT_STEP`. -/
def index_to_port (index : Nat) : Nat := 1111 + (index - 1) * 1111

/-- `alphabet[r]` for `alphabet = "abcdefghijklmnopqrstuvwxyz"`. -/
def alphabetChar (r : Nat) : Char := Char.ofNat (97 + r)

/-- The `while value > 0` loop of `_index_to_name`, producing the
characters in append order (least significant first).  Fuel: the value
strictly decreases each iteration. -/
def idxChars : Nat → Nat → List Char
  | 0, _ => []
  | fuel + 1, v =>
    if v = 0 then []
    else alphabetChar ((v - 1) % 26) :: idxChars fuel ((v - 1) / 26)

/-- `_index_to_name`: the spreadsheet-column name (the Python code
appends then reverses). -/
def index_to_name (index : Nat) : String :=
  String.mk (idxChars index index).reverse

/-- The value a name denotes in the base-26 spreadsheet-column system
over `a`..`z` (`a`=1 .. `z`=26): the inverse reading of the encoding. -/
def nameValue (s : String) : Nat :=
  s.data.foldl (fun acc c => acc * 26 + (c.toNat - 96)) 0

/-! ## Store lemmas (claim C2) -/

/-- The non-key update applied by the upsert's `DO UPDATE` arm. -/
def updRow (e r : FileEntry) : FileEntry :=
  { r with lname := e.lname, file_size := e.file_size,
           last_modified := e.last_modified }

/-- Updating the non-key columns of a row leaves key comparisons
unchanged. -/
theorem sameKey_updRow_left (e r c : FileEntry) :
    sameKey (updRow e r) c = sameKey r c := rfl

theorem sameKey_updRow_right (e r c : FileEntry) :
    sameKey c (updRow e r) = sameKey c r := rfl

/-- `register_file` written with `updRow` (definitional unfolding). -/
theorem register_file_eq (e : FileEntry) (s : List FileEntry) :
    register_file e s =
      if s.any fun r => sameKey r e then
        (s.map fun r => if sameKey r e then updRow e r else r, "updated")
      else (s ++ [e], "inserted") := rfl

/-- One SQLite upsert preserves key uniqueness. -/
theorem register_file_preserves_unique (e : FileEntry) (s : List FileEntry)
    (h : s.Pairwise fun a b => sameKey a b = false) :
    (register_file e s).1.Pairwise fun a b => sameKey a b = false := by
  rw [register_file_eq]
  by_cases hx : (s.any fun r => sameKey r e) = true
  · simp only [hx, if_true]
    rw [List.pairwise_map]
    refine h.imp_of_mem fun {a b} ha hb hab => ?_
    by_cases h1 : sameKey a e = true <;> by_cases h2 : sameKey b e = true <;>
      simp [h1, h2, sameKey_updRow_left, sameKey_updRow_right, hab]
  · rw [Bool.not_eq_true] at hx
    simp only [hx, Bool.false_eq_true, if_false]
    rw [List.any_eq_false] at hx
    rw [List.pairwise_append]
    refine ⟨h, by simp, ?_⟩
    intro a ha b hb
    simp only [List.mem_singleton] at hb
    subst hb
    simpa using hx a ha

/-- Any sequence of upserts preserves key uniqueness. -/
theorem foldl_register_preserves_unique (es : List FileEntry)
    (t : List FileEntry) (h : t.Pairwise fun a b => sameKey a b = false) :
    ((es.foldl (fun u x => (register_file x u).1) t).Pairwise
      fun a b => sameKey a b = false) := by
  induction es generalizing t with
  | nil => simpa using h
  | cons x xs ih =>
    simp only [List.foldl_cons]
    exact ih _ (register_file_preserves_unique x t h)

/-- C2, amended: the SQLite `register_file`
(`src/Assignment1/exe/database.py:111-129`) is an upsert on the unique
key `(fname, hostname, ip, port)`: across any sequence of registers at
most one row exists per key; registering an existing key answers
`"updated"` and rewrites the matching row's `lname`, `file_size` and
`last_modified` in place (same row count, non-matching rows kept);
registering a fresh key answers `"inserted"` and appends exactly one row.
The claim as frozen fails on the PostgreSQL layer of
`src/Assignment1/database.py`, whose unique key also includes
`file_size` and `last_modified` (see the counterexample). -/
theorem sqlite_register_upsert_invariant (e : FileEntry) (s : List FileEntry)
    (h : s.Pairwise fun a b => sameKey a b = false) :
    ((register_file e s).1.Pairwise fun a b => sameKey a b = false) ∧
    ((s.any fun r => sameKey r e) = true →
      (register_file e s).2 = "updated" ∧
      (register_file e s).1.length = s.length ∧
      ∀ r ∈ s, (sameKey r e = false → r ∈ (register_file e s).1) ∧
        (sameKey r e = true → updRow e r ∈ (register_file e s).1)) ∧
    ((s.any fun r => sameKey r e) = false →
      (register_file e s).2 = "inserted" ∧
      (register_file e s).1 = s ++ [e]) ∧
    ∀ es : List FileEntry,
      ((es.foldl (fun u x => (register_file x u).1) (register_file e s).1).Pairwise
        fun a b => sameKey a b = false) := by
  refine ⟨register_file_preserves_unique e s h, ?_, ?_, ?_⟩
  · intro hx
    rw [register_file_eq]
    simp only [hx, if_true]
    refine ⟨by simp, by simp, ?_⟩
    intro r hr
    constructor
    · intro hkey
      exact List.mem_map.mpr ⟨r, hr, by simp [hkey]⟩
    · intro hkey
      exact List.mem_map.mpr ⟨r, hr, by simp [hkey]⟩
  · intro hx
    rw [register_file_eq]
    simp [hx]
  · intro es
    exact foldl_register_preserves_unique es _
      (register_file_preserves_unique e s h)

/-- Witness for C2's theorem at a concrete store: a two-row store, an
upsert on the key of the first row. -/
theorem sqlite_register_upsert_invariant_witness :
    (register_file
        ⟨PyVal.str "f", PyVal.str "h", PyVal.str "1.1.1.1", PyVal.int 10,
          PyVal.str "b", PyVal.int 20, PyVal.str "t2"⟩
        [⟨PyVal.str "f", PyVal.str "h", PyVal.str "1.1.1.1", PyVal.int 10,
            PyVal.str "a", PyVal.int 10, PyVal.str "t1"⟩,
         ⟨PyVal.str "g", PyVal.str "h", PyVal.str "1.1.1.1", PyVal.int 10,
            PyVal.str "c", PyVal.int 5, PyVal.str "t0"⟩]).2 = "updated" :=
  ((sqlite_register_upsert_invariant
      ⟨PyVal.str "f", PyVal.str "h", PyVal.str "1.1.1.1", PyVal.int 10,
        PyVal.str "b", PyVal.int 20, PyVal.str "t2"⟩
      [⟨PyVal.str "f", PyVal.str "h", PyVal.str "1.1.1.1", PyVal.int 10,
          PyVal.str "a", PyVal.int 10, PyVal.str "t1"⟩,
       ⟨PyVal.str "g", PyVal.str "h", PyVal.str "1.1.1.1", PyVal.int 10,
          PyVal.str "c", PyVal.int 5, PyVal.str "t0"⟩]
      (by decide)).2.1 (by decide)).1

/-- C2, counterexample: on the PostgreSQL layer
(`src/Assignment1/database.py:88-99`) republishing the same
`(fname, hostname, ip, port)` with a changed `file_size`/`lname` inserts
a second row under that key instead of updating in place, and the result
is the boolean `true`, not `"updated"`. -/
theorem pg_register_duplicate_key_counterexample :
    (register_file_pg
        ⟨PyVal.str "f", PyVal.str "h", PyVal.str "1.1.1.1", PyVal.int 10,
          PyVal.str "b", PyVal.int 20, PyVal.str "t2"⟩
        (register_file_pg
          ⟨PyVal.str "f", PyVal.str "h", PyVal.str "1.1.1.1", PyVal.int 10,
            PyVal.str "a", PyVal.int 10, PyVal.str "t1"⟩ []).1).1 =
      [⟨PyVal.str "f", PyVal.str "h", PyVal.str "1.1.1.1", PyVal.int 10,
          PyVal.str "a", PyVal.int 10, PyVal.str "t1"⟩,
       ⟨PyVal.str "f", PyVal.str "h", PyVal.str "1.1.1.1", PyVal.int 10,
          PyVal.str "b", PyVal.int 20, PyVal.str "t2"⟩] ∧
    sameKey
      ⟨PyVal.str "f", PyVal.str "h", PyVal.str "1.1.1.1", PyVal.int 10,
        PyVal.str "b", PyVal.int 20, PyVal.str "t2"⟩
      ⟨PyVal.str "f", PyVal.str "h", PyVal.str "1.1.1.1", PyVal.int 10,
        PyVal.str "a", PyVal.int 10, PyVal.str "t1"⟩ = true ∧
    (register_file_pg
        ⟨PyVal.str "f", PyVal.str "h", PyVal.str "1.1.1.1", PyVal.int 10,
          PyVal.str "b", PyVal.int 20, PyVal.str "t2"⟩
        (register_file_pg
          ⟨PyVal.str "f", PyVal.str "h", PyVal.str "1.1.1.1", PyVal.int 10,
            PyVal.str "a", PyVal.int 10, PyVal.str "t1"⟩ []).1).2 = true := by
  refine ⟨?_, ?_, ?_⟩ <;> decide

/-! ## Publish semantics (claim C1) -/

/-- C1, amended: for a publish with non-empty `lname` and `fname` from a
session whose identity fields `(hostname, ip, port)` are all truthy, the
publish branch behaves as the claim states: no prior entry for
`(fname, identity)` registers and answers `"created"`; a prior entry with
the same `lname`, `file_size` and `last_modified` answers `"unchanged"`
leaving the store untouched; a prior entry with a different `lname` and
falsy `allow_overwrite` answers `"conflict"` carrying the existing
`lname`, leaving the store untouched; otherwise the entry is re-registered
and the answer is `"updated"`.  The claim as frozen omits the truthiness
guard at `src/Assignment1/server.py:90` and fails for a session with a
falsy identity field (see the counterexample). -/
theorem publish_cases_truthy_identity
    (host ip port : PyVal) (m : Msg) (store : List FileEntry)
    (hh : truthy host = true) (hip : truthy ip = true)
    (hport : truthy port = true)
    (hl : truthy m.lname = true) (hf : truthy m.fname = true) :
    (get_entry m.fname host ip port store = Option.none →
      (handle_publish_action host ip port m store).1.status = "created" ∧
      (handle_publish_action host ip port m store).2 =
        store ++ [⟨m.fname, host, ip, port, m.lname, m.file_size,
          m.last_modified⟩]) ∧
    ∀ e, get_entry m.fname host ip port store = Option.some e →
      ((pyEq e.lname m.lname && pyEq e.file_size m.file_size &&
          pyEq e.last_modified m.last_modified) = true →
        (handle_publish_action host ip port m store).1.status = "unchanged" ∧
        (handle_publish_action host ip port m store).2 = store) ∧
      (pyEq e.lname m.lname = false → truthy m.allow_overwrite = false →
        (handle_publish_action host ip port m store).1.status = "conflict" ∧
        (handle_publish_action host ip port m store).1.existing_lname =
          Option.some e.lname ∧
        (handle_publish_action host ip port m store).2 = store) ∧
      (((pyEq e.lname m.lname = true ∧
          (pyEq e.file_size m.file_size && pyEq e.last_modified m.last_modified)
            = false) ∨
        (pyEq e.lname m.lname = false ∧ truthy m.allow_overwrite = true)) →
        (handle_publish_action host ip port m store).1.status = "updated" ∧
        (handle_publish_action host ip port m store).2 =
          (register_file ⟨m.fname, host, ip, port, m.lname, m.file_size,
            m.last_modified⟩ store).1) := by
  have hguard : (!truthy m.lname || !truthy m.fname) = false := by
    simp [hl, hf]
  constructor
  · intro hnone
    have hnokey : (store.any fun r => sameKey r
        (⟨m.fname, host, ip, port, m.lname, m.file_size,
          m.last_modified⟩ : FileEntry)) = false := by
      rw [List.any_eq_false]
      intro r hr
      have h2 := List.find?_eq_none.mp hnone r hr
      simpa [sameKey, get_entry] using h2
    simp only [handle_publish_action, hguard, Bool.false_eq_true, if_false,
      hh, hip, hport, Bool.and_self, if_true, hnone]
    rw [register_file_eq]
    simp [hnokey]
  · intro e he
    simp only [handle_publish_action, hguard, Bool.false_eq_true, if_false,
      hh, hip, hport, Bool.and_self, if_true, he]
    refine ⟨?_, ?_, ?_⟩
    · intro hm
      simp only [hm, if_true]
      exact ⟨by simp, by simp⟩
    · intro hlname hallow
      simp only [hlname, hallow, Bool.false_and, Bool.and_false,
        Bool.false_eq_true, if_false, Bool.not_false, Bool.and_self, if_true]
      exact ⟨by simp, by simp, by simp⟩
    · intro hcase
      rcases hcase with ⟨hsame, hmeta⟩ | ⟨hdiff, hallow⟩
      · have hm : (pyEq e.lname m.lname && pyEq e.file_size m.file_size &&
            pyEq e.last_modified m.last_modified) = false := by
          rcases Bool.and_eq_false_iff.mp hmeta with h1 | h1 <;>
            simp [hsame, h1]
        have hnot : (!pyEq e.lname m.lname && !truthy m.allow_overwrite)
            = false := by simp [hsame]
        simp only [Bool.and_assoc] at hm ⊢
        simp only [hm, Bool.false_eq_true, if_false, hnot]
        exact ⟨by simp, by simp⟩
      · have hm : (pyEq e.lname m.lname && pyEq e.file_size m.file_size &&
            pyEq e.last_modified m.last_modified) = false := by simp [hdiff]
        have hnot : (!pyEq e.lname m.lname && !truthy m.allow_overwrite)
            = false := by simp [hallow]
        simp only [Bool.and_assoc] at hm ⊢
        simp only [hm, Bool.false_eq_true, if_false, hnot]
        exact ⟨by simp, by simp⟩

/-- Witness for C1's theorem: a fresh publish from a fully truthy
identity on an empty store is `"created"`. -/
theorem publish_cases_truthy_identity_witness :
    (handle_publish_action (PyVal.str "hostA") (PyVal.str "1.2.3.4")
        (PyVal.int 4000)
        ⟨PyVal.str "publish", PyVal.none, PyVal.none, PyVal.str "/a.txt",
          PyVal.str "a.txt", PyVal.int 12, PyVal.str "2024-11-04T00:00:00Z",
          PyVal.none⟩ []).1.status = "created" :=
  ((publish_cases_truthy_identity (PyVal.str "hostA") (PyVal.str "1.2.3.4")
      (PyVal.int 4000)
      ⟨PyVal.str "publish", PyVal.none, PyVal.none, PyVal.str "/a.txt",
        PyVal.str "a.txt", PyVal.int 12, PyVal.str "2024-11-04T00:00:00Z",
        PyVal.none⟩ [] (by decide) (by decide) (by decide) (by decide)
      (by decide)).1 (by decide)).1

/-- C1, counterexample: a session whose hello carried the falsy hostname
`""` republishes an alias whose entry (same `lname`, `file_size`,
`last_modified`) is already in the store; the claim requires
`status = "unchanged"`, but the truthiness guard skips the lookup and the
server answers `"created"` (re-registering the entry). -/
theorem publish_falsy_identity_counterexample :
    (handle_publish_action (PyVal.str "") (PyVal.str "1.2.3.4")
        (PyVal.int 4000)
        ⟨PyVal.str "publish", PyVal.none, PyVal.none, PyVal.str "/a.txt",
          PyVal.str "a.txt", PyVal.int 12, PyVal.str "2024-11-04T00:00:00Z",
          PyVal.none⟩
        [⟨PyVal.str "a.txt", PyVal.str "", PyVal.str "1.2.3.4",
            PyVal.int 4000, PyVal.str "/a.txt", PyVal.int 12,
            PyVal.str "2024-11-04T00:00:00Z"⟩]).1.status = "created" := by
  decide

/-! ## Session teardown (claims C3, C5, C10) -/

/-- After `removeActive`, every list still stored under the leaving
hostname is non-empty and free of the leaving `(ip, port)`. -/
theorem removeActive_spec (hostname ip port : PyVal)
    (t : List (PyVal × List ActInfo)) :
    ∀ kv ∈ removeActive hostname ip port t, pyEq kv.1 hostname = true →
      kv.2 ≠ [] ∧ ∀ i ∈ kv.2, ¬(pyEq i.ip ip = true ∧ pyEq i.port port = true) := by
  intro kv hkv hhost
  unfold removeActive at hkv
  rw [List.mem_filter] at hkv
  obtain ⟨hmem, hkeep⟩ := hkv
  rw [List.mem_map] at hmem
  obtain ⟨kv0, _, himg⟩ := hmem
  constructor
  · intro hempty
    rw [hempty] at hkeep
    simp [hhost] at hkeep
  · intro i hi
    by_cases h0 : pyEq kv0.1 hostname = true
    · rw [if_pos h0] at himg
      subst himg
      simp only [List.mem_filter] at hi
      intro hmatch
      have := hi.2
      simp [hmatch.1, hmatch.2] at this
    · rw [if_neg h0] at himg
      subst himg
      exact absurd hhost h0

/-- Rows surviving `delete_entries_for_peer` do not match the peer. -/
theorem delete_entries_spec (hostname ip port : PyVal) (s : List FileEntry) :
    ∀ e ∈ (delete_entries_for_peer hostname ip port s).1,
      matchesPeer hostname ip port e = false := by
  intro e he
  unfold delete_entries_for_peer at he
  rw [List.mem_filter] at he
  simpa using he.2

/-- C3, amended: a session that completed the handshake with truthy
`hostname` and `p2p_port` is fully deregistered on every exit path of the
handler: in the final state every surviving active-client list under a key
equal to the hostname is non-empty and free of the session's
`(ip, port)`, no store row matches the identity, `get_entry` answers
`none` for the identity under every `fname`, and `list_peers_for_file`
never mentions the identity.  The claim as frozen, quantified over every
session that completed the handshake, fails for a session with a falsy
hostname or port, because the `finally` guard at
`src/Assignment1/server.py:169` skips the teardown (see the
counterexample and claim C10). -/
theorem session_close_deregisters_truthy
    (cip : PyVal) (m : Msg) (events : List (Option Msg)) (st : SrvState)
    (hact : pyEq m.action (PyVal.str "hello") = true)
    (hh : truthy m.hostname = true) (hp : truthy m.p2p_port = true) :
    (∀ kv ∈ (handle_client cip (Option.some m) events st).1.active,
      pyEq kv.1 m.hostname = true →
        kv.2 ≠ [] ∧ ∀ i ∈ kv.2,
          ¬(pyEq i.ip cip = true ∧ pyEq i.port m.p2p_port = true)) ∧
    (∀ e ∈ (handle_client cip (Option.some m) events st).1.store,
      matchesPeer m.hostname cip m.p2p_port e = false) ∧
    (∀ fname, get_entry fname m.hostname cip m.p2p_port
      (handle_client cip (Option.some m) events st).1.store = Option.none) ∧
    (∀ fname e, e ∈ list_peers_for_file fname
        (handle_client cip (Option.some m) events st).1.store →
      matchesPeer m.hostname cip m.p2p_port e = false) := by
  have hstate : (handle_client cip (Option.some m) events st).1 =
      ⟨removeActive m.hostname cip m.p2p_port
          (runReady m.hostname cip m.p2p_port events
            ⟨addActive m.hostname ⟨cip, m.p2p_port⟩ st.active,
              st.store⟩).1.active,
        (delete_entries_for_peer m.hostname cip m.p2p_port
          (runReady m.hostname cip m.p2p_port events
            ⟨addActive m.hostname ⟨cip, m.p2p_port⟩ st.active,
              st.store⟩).1.store).1⟩ := by
    simp only [handle_client, hact, Bool.not_true, Bool.false_eq_true,
      if_false, hh, hp, Bool.and_self, if_true]
  rw [hstate]
  refine ⟨removeActive_spec _ _ _ _, delete_entries_spec _ _ _ _, ?_, ?_⟩
  · intro fname
    rw [Option.eq_none_iff_forall_not_mem]
    intro e he
    have hf := List.find?_some he
    have hmem := List.mem_of_find?_eq_some he
    have hrow := delete_entries_spec m.hostname cip m.p2p_port _ _ hmem
    simp only [Bool.and_eq_true] at hf
    simp [matchesPeer, hf.1.1.2, hf.1.2, hf.2] at hrow
  · intro fname e he
    unfold list_peers_for_file at he
    rw [mem_insertionSort, List.mem_filter] at he
    exact delete_entries_spec m.hostname cip m.p2p_port _ _ he.1

/-- Witness for C3's theorem: a session that says hello as `alpha`,
publishes a file and closes; afterwards `get_entry` finds nothing for its
identity. -/
theorem session_close_deregisters_truthy_witness :
    get_entry (PyVal.str "a.txt") (PyVal.str "alpha") (PyVal.str "127.0.0.1")
      (PyVal.int 4000)
      (handle_client (PyVal.str "127.0.0.1")
        (Option.some ⟨PyVal.str "hello", PyVal.str "alpha", PyVal.int 4000,
          PyVal.none, PyVal.none, PyVal.none, PyVal.none, PyVal.none⟩)
        [Option.some ⟨PyVal.str "publish", PyVal.none, PyVal.none,
          PyVal.str "/tmp/a.txt", PyVal.str "a.txt", PyVal.int 12,
          PyVal.str "2024-11-04T00:00:00Z", PyVal.none⟩, Option.none]
        ⟨[], []⟩).1.store = Option.none :=
  (session_close_deregisters_truthy (PyVal.str "127.0.0.1")
      ⟨PyVal.str "hello", PyVal.str "alpha", PyVal.int 4000, PyVal.none,
        PyVal.none, PyVal.none, PyVal.none, PyVal.none⟩
      [Option.some ⟨PyVal.str "publish", PyVal.none, PyVal.none,
        PyVal.str "/tmp/a.txt", PyVal.str "a.txt", PyVal.int 12,
        PyVal.str "2024-11-04T00:00:00Z", PyVal.none⟩, Option.none]
      ⟨[], []⟩ (by decide) (by decide) (by decide)).2.2.1 (PyVal.str "a.txt")

/-- C3, counterexample: a session whose hello carried the falsy hostname
`""` publishes a file and closes; the `finally` guard skips the teardown,
so `get_entry` still finds the row afterwards — the claim promises `none`
for every session that completed the handshake. -/
theorem teardown_skipped_falsy_counterexample :
    get_entry (PyVal.str "a.txt") (PyVal.str "") (PyVal.str "127.0.0.1")
      (PyVal.int 4000)
      (handle_client (PyVal.str "127.0.0.1")
        (Option.some ⟨PyVal.str "hello", PyVal.str "", PyVal.int 4000,
          PyVal.none, PyVal.none, PyVal.none, PyVal.none, PyVal.none⟩)
        [Option.some ⟨PyVal.str "publish", PyVal.none, PyVal.none,
          PyVal.str "/tmp/a.txt", PyVal.str "a.txt", PyVal.int 12,
          PyVal.str "2024-11-04T00:00:00Z", PyVal.none⟩, Option.none]
        ⟨[], []⟩).1.store =
      Option.some ⟨PyVal.str "a.txt", PyVal.str "", PyVal.str "127.0.0.1",
        PyVal.int 4000, PyVal.str "/tmp/a.txt", PyVal.int 12,
        PyVal.str "2024-11-04T00:00:00Z"⟩ := by
  decide

/-- C5, amended: a first message that is absent (or falsy) or whose
`action` is not `"hello"` is rejected with
`{status:"error", message:"Expected hello message"}` and the session
closes with the server state exactly unchanged — no `ActiveSession`
entry, no index row.  The claim as frozen also demands this for a message
with `action = "hello"` but missing `hostname`/`p2p_port`; the check at
`src/Assignment1/server.py:45` only tests the action, so such a hello is
accepted (see the counterexample and claim C10). -/
theorem non_hello_first_message_rejected (cip : PyVal) (intro : Option Msg)
    (events : List (Option Msg)) (st : SrvState)
    (h : ∀ m, intro = Option.some m → pyEq m.action (PyVal.str "hello") = false) :
    handle_client cip intro events st = (st, [errHello]) := by
  cases intro with
  | none => rfl
  | some m =>
    have hm := h m rfl
    simp [handle_client, hm]

/-- Witness for C5's theorem: the first message is a publish. -/
theorem non_hello_first_message_rejected_witness :
    handle_client (PyVal.str "127.0.0.1")
      (Option.some ⟨PyVal.str "publish", PyVal.none, PyVal.none,
        PyVal.str "/tmp/a.txt", PyVal.str "a.txt", PyVal.none, PyVal.none,
        PyVal.none⟩)
      [] ⟨[], []⟩ = (⟨[], []⟩, [errHello]) :=
  non_hello_first_message_rejected (PyVal.str "127.0.0.1")
    (Option.some ⟨PyVal.str "publish", PyVal.none, PyVal.none,
      PyVal.str "/tmp/a.txt", PyVal.str "a.txt", PyVal.none, PyVal.none,
      PyVal.none⟩)
    [] ⟨[], []⟩ (by decide)

/-- C5, counterexample: a first message `{action:"hello"}` with no
`hostname` and no `p2p_port` field; the claim requires the error reply
and no `ActiveSession` entry, but the server replies success and records
an entry under hostname `None`. -/
theorem hello_missing_fields_accepted_counterexample :
    handle_client (PyVal.str "127.0.0.1")
      (Option.some ⟨PyVal.str "hello", PyVal.none, PyVal.none, PyVal.none,
        PyVal.none, PyVal.none, PyVal.none, PyVal.none⟩)
      [] ⟨[], []⟩ =
      (⟨[(PyVal.none, [⟨PyVal.str "127.0.0.1", PyVal.none⟩])], []⟩,
        [helloOk]) := by
  decide

/-! ## Falsy hello skips the teardown (claim C10) -/

/-- The READY dispatch never touches the active-client table. -/
theorem dispatchA_active (hostname cip port : PyVal) (m : Msg)
    (st : SrvState) :
    (dispatchA hostname cip port m st).1.active = st.active := by
  unfold dispatchA
  by_cases h1 : pyEq m.action (PyVal.str "publish") = true <;>
    by_cases h2 : pyEq m.action (PyVal.str "fetch") = true <;>
    by_cases h3 : pyEq m.action (PyVal.str "ping") = true <;>
    by_cases h4 : truthy m.fname = true <;>
    simp [h1, h2, h3, h4]

/-- The READY loop never touches the active-client table. -/
theorem runReady_active (hostname cip port : PyVal)
    (events : List (Option Msg)) (st : SrvState) :
    (runReady hostname cip port events st).1.active = st.active := by
  induction events generalizing st with
  | nil => rfl
  | cons ev rest ih =>
    cases ev with
    | none => rfl
    | some m =>
      simp only [runReady]
      rw [ih, dispatchA_active]

/-- `pyEq` is reflexive. -/
theorem pyEq_refl (v : PyVal) : pyEq v v = true := by
  cases v <;> simp [pyEq]

/-- After `addActive`, some key equal to the hostname holds the new
record. -/
theorem addActive_mem (hostname : PyVal) (i : ActInfo)
    (t : List (PyVal × List ActInfo)) :
    ∃ kv ∈ addActive hostname i t, pyEq kv.1 hostname = true ∧ i ∈ kv.2 := by
  unfold addActive
  by_cases hx : (t.any fun kv => pyEq kv.1 hostname) = true
  · rw [if_pos hx]
    rw [List.any_eq_true] at hx
    obtain ⟨kv0, hkv0, hkey⟩ := hx
    refine ⟨(kv0.1, kv0.2 ++ [i]), ?_, hkey, by simp⟩
    exact List.mem_map.mpr ⟨kv0, hkv0, by simp [hkey]⟩
  · rw [if_neg hx]
    exact ⟨(hostname, [i]), by simp, pyEq_refl hostname, by simp⟩

/-- C10, confirmed: when the first message has `action = "hello"` but its
`hostname` or `p2p_port` is falsy (absent, `""`, `0`, `null`, ...), the
server still replies `{status:"success", message:"Hello from server!"}`,
records the `(ip, port)` record under the falsy hostname, runs the
request loop, and on close skips the `finally` teardown entirely: the
final state is exactly the state the request loop produced — the
`ActiveSession` record is still present and no index row was removed. -/
theorem falsy_hello_skips_teardown (cip : PyVal) (m : Msg)
    (events : List (Option Msg)) (st : SrvState)
    (hact : pyEq m.action (PyVal.str "hello") = true)
    (hfalsy : (truthy m.hostname && truthy m.p2p_port) = false) :
    handle_client cip (Option.some m) events st =
      ((runReady m.hostname cip m.p2p_port events
          ⟨addActive m.hostname ⟨cip, m.p2p_port⟩ st.active, st.store⟩).1,
        helloOk :: (runReady m.hostname cip m.p2p_port events
          ⟨addActive m.hostname ⟨cip, m.p2p_port⟩ st.active, st.store⟩).2) ∧
    ∃ kv ∈ (runReady m.hostname cip m.p2p_port events
        ⟨addActive m.hostname ⟨cip, m.p2p_port⟩ st.active, st.store⟩).1.active,
      pyEq kv.1 m.hostname = true ∧ (⟨cip, m.p2p_port⟩ : ActInfo) ∈ kv.2 := by
  constructor
  · simp only [handle_client, hact, Bool.not_true, Bool.false_eq_true,
      if_false, hfalsy]
  · rw [runReady_active]
    exact addActive_mem m.hostname ⟨cip, m.p2p_port⟩ st.active

/-- Witness for C10's theorem: hello with hostname `""` and port `0`,
then immediate close. -/
theorem falsy_hello_skips_teardown_witness :
    handle_client (PyVal.str "127.0.0.1")
      (Option.some ⟨PyVal.str "hello", PyVal.str "", PyVal.int 0, PyVal.none,
        PyVal.none, PyVal.none, PyVal.none, PyVal.none⟩)
      [Option.none] ⟨[], []⟩ =
      ((runReady (PyVal.str "") (PyVal.str "127.0.0.1") (PyVal.int 0)
          [Option.none]
          ⟨addActive (PyVal.str "")
            ⟨PyVal.str "127.0.0.1", PyVal.int 0⟩ [], []⟩).1,
        helloOk :: (runReady (PyVal.str "") (PyVal.str "127.0.0.1")
          (PyVal.int 0) [Option.none]
          ⟨addActive (PyVal.str "")
            ⟨PyVal.str "127.0.0.1", PyVal.int 0⟩ [], []⟩).2) :=
  (falsy_hello_skips_teardown (PyVal.str "127.0.0.1")
    ⟨PyVal.str "hello", PyVal.str "", PyVal.int 0, PyVal.none, PyVal.none,
      PyVal.none, PyVal.none, PyVal.none⟩
    [Option.none] ⟨[], []⟩ (by decide) (by decide)).1

/-! ## One reply per request (claim C4) -/

/-- C4: the claim promises exactly one reply per request, but in
`src/server.py:88-99` the fetch branch sends the `Missing fname` error
and then, lacking the `continue` that the publish branch has, also sends
the success reply: a fetch without `fname` gets two replies on one
request. -/
theorem old_fetch_missing_fname_two_replies :
    (oldDispatch (PyVal.str "alpha") (PyVal.str "127.0.0.1")
        (PyVal.int 4000)
        ⟨PyVal.str "fetch", PyVal.none, PyVal.none, PyVal.none, PyVal.none,
          PyVal.none, PyVal.none, PyVal.none⟩ []).2 =
      [⟨"error", Option.some "Missing fname", Option.none⟩,
       ⟨"success", Option.none, Option.some []⟩] ∧
    (oldDispatch (PyVal.str "alpha") (PyVal.str "127.0.0.1")
        (PyVal.int 4000)
        ⟨PyVal.str "fetch", PyVal.none, PyVal.none, PyVal.none, PyVal.none,
          PyVal.none, PyVal.none, PyVal.none⟩ []).2.length = 2 := by
  constructor <;> decide

/-! ## Peer serving side (claim C8) -/

/-- The chunking loop reassembles the file exactly, in non-empty chunks
of at most 4096 bytes. -/
theorem fileChunks_spec : ∀ (fuel : Nat) (bs : List Nat),
    bs.length ≤ fuel →
    (fileChunks fuel bs).flatten = bs ∧
      ∀ c ∈ fileChunks fuel bs, c ≠ [] ∧ c.length ≤ 4096 := by
  intro fuel
  induction fuel with
  | zero =>
    intro bs h
    have : bs = [] := List.length_eq_zero.mp (Nat.le_zero.mp h)
    subst this
    simp [fileChunks]
  | succ fuel ih =>
    intro bs h
    match bs with
    | [] => simp [fileChunks]
    | b :: t =>
      have hdrop : ((b :: t).drop 4096).length ≤ fuel := by
        rw [List.length_drop]
        simp only [List.length_cons] at h ⊢
        omega
      obtain ⟨ihjoin, ihchunks⟩ := ih _ hdrop
      refine ⟨?_, ?_⟩
      · simp only [fileChunks, List.flatten_cons]
        rw [ihjoin]
        exact List.take_append_drop 4096 (b :: t)
      · intro c hc
        simp only [fileChunks, List.mem_cons] at hc
        rcases hc with rfl | hc
        · constructor
          · simp
          · simp [List.length_take_le]
        · exact ihchunks c hc

/-- C8, confirmed: on a `get_file` request whose truthy path exists, the
serving worker's writes joined together are exactly the file's contents,
sent as non-empty chunks of at most 4096 bytes; when the path does not
exist, when `lname` is absent or otherwise not a string (`dict.get`
yields `None`, an int or a bool), when `lname` is the falsy empty
string, when the action is not `get_file`, or when no message arrives,
nothing is written. -/
theorem peer_serving_streams_exact_file (m : Msg)
    (fs : String → Option (List Nat)) (p : String) (content : List Nat) :
    (pyEq m.action (PyVal.str "get_file") = true → m.lname = PyVal.str p →
      p ≠ "" → fs p = Option.some content →
      (handle_peer (Option.some m) fs).flatten = content ∧
        ∀ c ∈ handle_peer (Option.some m) fs, c ≠ [] ∧ c.length ≤ 4096) ∧
    (m.lname = PyVal.str p → fs p = Option.none →
      handle_peer (Option.some m) fs = []) ∧
    ((∀ q : String, m.lname ≠ PyVal.str q) →
      handle_peer (Option.some m) fs = []) ∧
    (m.lname = PyVal.str "" → handle_peer (Option.some m) fs = []) ∧
    (pyEq m.action (PyVal.str "get_file") = false →
      handle_peer (Option.some m) fs = []) ∧
    handle_peer Option.none fs = [] := by
  refine ⟨?_, ?_, ?_, ?_, ?_, rfl⟩
  · intro hact hln hp hfs
    have : handle_peer (Option.some m) fs = readChunks content := by
      simp [handle_peer, hact, hln, hp, hfs]
    rw [this]
    exact fileChunks_spec content.length content le_rfl
  · intro hln hfs
    by_cases hact : pyEq m.action (PyVal.str "get_file") = true
    · by_cases hp : p = ""
      · simp [handle_peer, hact, hln, hp]
      · simp [handle_peer, hact, hln, hp, hfs]
    · have hact2 : pyEq m.action (PyVal.str "get_file") = false := by
        simpa using hact
      simp [handle_peer, hact2]
  · intro hstr
    by_cases hact : pyEq m.action (PyVal.str "get_file") = true
    · cases hl : m.lname with
      | str q => exact absurd hl (hstr q)
      | none => simp [handle_peer, hact, hl]
      | int i => simp [handle_peer, hact, hl]
      | bool b => simp [handle_peer, hact, hl]
    · have hact2 : pyEq m.action (PyVal.str "get_file") = false := by
        simpa using hact
      simp [handle_peer, hact2]
  · intro hl
    by_cases hact : pyEq m.action (PyVal.str "get_file") = true
    · simp [handle_peer, hact, hl]
    · have hact2 : pyEq m.action (PyVal.str "get_file") = false := by
        simpa using hact
      simp [handle_peer, hact2]
  · intro hact
    simp [handle_peer, hact]

/-- Witness for C8's theorem: a six-byte file `ABCDEF` is sent exactly,
and a `get_file` request with no `lname` field writes nothing. -/
theorem peer_serving_streams_exact_file_witness :
    (handle_peer
      (Option.some ⟨PyVal.str "get_file", PyVal.none, PyVal.none,
        PyVal.str "/tmp/f.bin", PyVal.none, PyVal.none, PyVal.none,
        PyVal.none⟩)
      (fun q => if q = "/tmp/f.bin"
        then Option.some [65, 66, 67, 68, 69, 70] else Option.none)).flatten =
      [65, 66, 67, 68, 69, 70] ∧
    handle_peer
      (Option.some ⟨PyVal.str "get_file", PyVal.none, PyVal.none,
        PyVal.none, PyVal.none, PyVal.none, PyVal.none, PyVal.none⟩)
      (fun _ => Option.none) = [] :=
  ⟨((peer_serving_streams_exact_file
      ⟨PyVal.str "get_file", PyVal.none, PyVal.none, PyVal.str "/tmp/f.bin",
        PyVal.none, PyVal.none, PyVal.none, PyVal.none⟩
      (fun q => if q = "/tmp/f.bin"
        then Option.some [65, 66, 67, 68, 69, 70] else Option.none)
      "/tmp/f.bin" [65, 66, 67, 68, 69, 70]).1
    (by decide) rfl (by decide) (by simp)).1,
   (peer_serving_streams_exact_file
      ⟨PyVal.str "get_file", PyVal.none, PyVal.none, PyVal.none,
        PyVal.none, PyVal.none, PyVal.none, PyVal.none⟩
      (fun _ => Option.none) "" []).2.2.1
    (by intro q h; exact PyVal.noConfusion h)⟩

/-! ## Launcher identity (claim C9) -/

/-- `alphabet[r]` is the `r`-th lowercase letter. -/
theorem alphabetChar_toNat (r : Nat) (h : r < 26) :
    (alphabetChar r).toNat = 97 + r := by
  interval_cases r <;> decide

/-- Decoding inverts the `while value > 0` loop of `_index_to_name`. -/
theorem idxChars_value : ∀ (fuel v : Nat), v ≤ fuel →
    List.foldl (fun acc c => acc * 26 + (c.toNat - 96)) 0
      (idxChars fuel v).reverse = v := by
  intro fuel
  induction fuel with
  | zero =>
    intro v h
    have : v = 0 := Nat.le_zero.mp h
    subst this
    simp [idxChars]
  | succ fuel ih =>
    intro v h
    by_cases hv : v = 0
    · subst hv
      simp [idxChars]
    · have hpos : 1 ≤ v := Nat.one_le_iff_ne_zero.mpr hv
      have hrec : (v - 1) / 26 ≤ fuel := by
        have h1 : (v - 1) / 26 ≤ v - 1 := Nat.div_le_self _ _
        omega
      have ihv := ih ((v - 1) / 26) hrec
      simp only [idxChars, hv, if_false, List.reverse_cons, List.foldl_append,
        List.foldl_cons, List.foldl_nil]
      rw [ihv]
      have hlt : (v - 1) % 26 < 26 := Nat.mod_lt _ (by omega)
      rw [alphabetChar_toNat _ hlt]
      have := Nat.div_add_mod (v - 1) 26
      omega

/-- Every character produced by the loop is a lowercase letter. -/
theorem idxChars_lower : ∀ (fuel v : Nat), ∀ c ∈ idxChars fuel v,
    97 ≤ c.toNat ∧ c.toNat ≤ 122 := by
  intro fuel
  induction fuel with
  | zero => intro v c hc; simp [idxChars] at hc
  | succ fuel ih =>
    intro v c hc
    by_cases hv : v = 0
    · subst hv; simp [idxChars] at hc
    · simp only [idxChars, hv, if_false, List.mem_cons] at hc
      rcases hc with rfl | hc
      · have hlt : (v - 1) % 26 < 26 := Nat.mod_lt _ (by omega)
        rw [alphabetChar_toNat _ hlt]
        omega
      · exact ih _ c hc

/-- C9, confirmed: counter `N ≥ 1` maps to port `1111 + 1111·(N-1)` and
to the base-26 spreadsheet-column name over `a`..`z`: the name is a
non-empty all-lowercase string whose spreadsheet value is `N`, with the
anchors `1 ↦ "a"` and `27 ↦ "aa"`. -/
theorem launcher_identity_allocation (n : Nat) (h : 1 ≤ n) :
    index_to_port n = 1111 + 1111 * (n - 1) ∧
    nameValue (index_to_name n) = n ∧
    (index_to_name n).data ≠ [] ∧
    (∀ c ∈ (index_to_name n).data, 97 ≤ c.toNat ∧ c.toNat ≤ 122) ∧
    index_to_name 1 = "a" ∧ index_to_name 27 = "aa" := by
  refine ⟨?_, ?_, ?_, ?_, by decide, by decide⟩
  · unfold index_to_port
    ring
  · unfold nameValue index_to_name
    exact idxChars_value n n le_rfl
  · unfold index_to_name
    match hn : n with
    | Nat.succ k =>
      simp [idxChars]
  · intro c hc
    unfold index_to_name at hc
    rw [List.mem_reverse] at hc
    exact idxChars_lower n n c hc

/-- Witness for C9's theorem at `N = 27`. -/
theorem launcher_identity_allocation_witness :
    index_to_port 27 = 1111 + 1111 * (27 - 1) ∧
    nameValue (index_to_name 27) = 27 :=
  ⟨(launcher_identity_allocation 27 (by decide)).1,
   (launcher_identity_allocation 27 (by decide)).2.1⟩

/-! ## Framed JSON codec (`src/Submission/ASS1_MrGold/protocol.py`)

`send_message` serializes a JSON value with Python's `json.dumps`
(default options: `ensure_ascii=True`, separators `", "` and `": "`),
prefixes the 4-byte big-endian length (`struct.pack`), and sends both.
`receive_message` reads the header with one `recv(4)`, loops on the body,
and decodes with `bytes.decode("utf-8")` + `json.loads`.

The JSON model covers the value universe the program's messages use:
objects with string keys, arrays, strings, integers, booleans and null
(no floats; accordingly the number parser reads integers and does not
consume a fraction/exponent, and it does not reject redundant leading
zeros, which `dumps` never emits).  Python's `json.loads` keeps a lone
surrogate produced by a `\uXXXX` escape as a lone-surrogate `str`
character; a Lean `Char` cannot hold one, so the model's string parser
answers `none` there — `dumps` output never contains one. -/

/-- The opening brace character (spelled via its code point). -/
def lbrace : Char := Char.ofNat 123

/-- The closing brace character. -/
def rbrace : Char := Char.ofNat 125

mutual
inductive JsonVal where
  | null : JsonVal
  | bool : Bool → JsonVal
  | num : Int → JsonVal
  | str : String → JsonVal
  | arr : JsonItems → JsonVal
  | obj : JsonMembers → JsonVal
inductive JsonItems where
  | nil : JsonItems
  | cons : JsonVal → JsonItems → JsonItems
inductive JsonMembers where
  | nil : JsonMembers
  | cons : String → JsonVal → JsonMembers → JsonMembers
end

/-- Decimal digit character. -/
def digitChar48 : Nat → Char
  | 0 => '0' | 1 => '1' | 2 => '2' | 3 => '3' | 4 => '4'
  | 5 => '5' | 6 => '6' | 7 => '7' | 8 => '8' | _ => '9'

/-- Lowercase hexadecimal digit character (as Python's `%04x`). -/
def hexDigitChar : Nat → Char
  | 0 => '0' | 1 => '1' | 2 => '2' | 3 => '3' | 4 => '4'
  | 5 => '5' | 6 => '6' | 7 => '7' | 8 => '8' | 9 => '9'
  | 10 => 'a' | 11 => 'b' | 12 => 'c' | 13 => 'd' | 14 => 'e' | _ => 'f'

/-- Decimal digits of `n`, most significant first (`str(n)` for a
natural).  The fuel only bounds the recursion: `n` strictly shrinks. -/
def natReprAux : Nat → Nat → List Char
  | 0, _ => []
  | fuel + 1, n =>
    if n < 10 then [digitChar48 n]
    else natReprAux fuel (n / 10) ++ [digitChar48 (n % 10)]

/-- `str(n)` for a natural number. -/
def natRepr (n : Nat) : List Char := natReprAux (n + 1) n

/-- `str(n)` for a Python integer (sign and digits). -/
def intRepr (n : Int) : List Char :=
  if n < 0 then '-' :: natRepr (-n).toNat else natRepr n.toNat

/-- Four lowercase hex digits of `v < 0x10000` (`"%04x" % v`). -/
def hex4 (v : Nat) : List Char :=
  [hexDigitChar (v / 4096 % 16), hexDigitChar (v / 256 % 16),
   hexDigitChar (v / 16 % 16), hexDigitChar (v % 16)]

/-- `json.dumps` escaping of one character with `ensure_ascii=True`:
quote and backslash get two-character escapes, the five named control
escapes apply, all other characters outside `0x20..0x7e` become `\uXXXX`
(a surrogate pair beyond `0xFFFF`), and the printable ASCII rest is
literal. -/
def escChar (c : Char) : List Char :=
  if c = '"' then ['\\', '"']
  else if c = '\\' then ['\\', '\\']
  else if c.toNat = 8 then ['\\', 'b']
  else if c.toNat = 9 then ['\\', 't']
  else if c.toNat = 10 then ['\\', 'n']
  else if c.toNat = 12 then ['\\', 'f']
  else if c.toNat = 13 then ['\\', 'r']
  else if c.toNat < 32 ∨ 126 < c.toNat then
    if c.toNat < 65536 then '\\' :: 'u' :: hex4 c.toNat
    else ('\\' :: 'u' :: hex4 (55296 + (c.toNat - 65536) / 1024)) ++
         ('\\' :: 'u' :: hex4 (56320 + (c.toNat - 65536) % 1024))
  else [c]

/-- Escape a character list. -/
def escList : List Char → List Char
  | [] => []
  | c :: cs => escChar c ++ escList cs

/-- `json.dumps` of a string. -/
def dumpString (s : String) : List Char := '"' :: (escList s.data ++ ['"'])

mutual
/-- `json.dumps` with the default separators `", "` and `": "`. -/
def dump : JsonVal → List Char
  | JsonVal.null => ['n', 'u', 'l', 'l']
  | JsonVal.bool true => ['t', 'r', 'u', 'e']
  | JsonVal.bool false => ['f', 'a', 'l', 's', 'e']
  | JsonVal.num n => intRepr n
  | JsonVal.str s => dumpString s
  | JsonVal.arr JsonItems.nil => ['[', ']']
  | JsonVal.arr (JsonItems.cons x xs) =>
      '[' :: ((dump x ++ dumpItems xs) ++ [']'])
  | JsonVal.obj JsonMembers.nil => [lbrace, rbrace]
  | JsonVal.obj (JsonMembers.cons k v ms) =>
      lbrace :: ((dumpString k ++ ':' :: ' ' :: (dump v ++ dumpMembers ms))
        ++ [rbrace])
/-- The `", item"` continuations of an array body. -/
def dumpItems : JsonItems → List Char
  | JsonItems.nil => []
  | JsonItems.cons x xs => ',' :: ' ' :: (dump x ++ dumpItems xs)
/-- The `", key: value"` continuations of an object body. -/
def dumpMembers : JsonMembers → List Char
  | JsonMembers.nil => []
  | JsonMembers.cons k v ms =>
      ',' :: ' ' :: (dumpString k ++ ':' :: ' ' :: (dump v ++ dumpMembers ms))
end

/-- JSON whitespace (the `[ \t\n\r]*` class of the scanner). -/
def isWsChar (c : Char) : Bool :=
  c = ' ' || c.toNat = 9 || c.toNat = 10 || c.toNat = 13

/-- Skip JSON whitespace. -/
def skipWs : List Char → List Char
  | [] => []
  | c :: cs => if isWsChar c then skipWs cs else c :: cs

/-- Decimal digit test. -/
def isDigitChar (c : Char) : Bool := 48 ≤ c.toNat && c.toNat ≤ 57

/-- Value of a decimal digit character. -/
def digitVal (c : Char) : Nat := c.toNat - 48

/-- Greedy digit run, folded into an accumulator. -/
def takeDigitsAcc (acc : Nat) : List Char → Nat × List Char
  | [] => (acc, [])
  | c :: cs =>
    if isDigitChar c then takeDigitsAcc (acc * 10 + digitVal c) cs
    else (acc, c :: cs)

/-- Integer number parse (optional sign, then a digit run). -/
def parseIntFrom : List Char → Option (Int × List Char)
  | [] => Option.none
  | c :: cs =>
    if c = '-' then
      match cs with
      | [] => Option.none
      | c2 :: cs2 =>
        if isDigitChar c2 then
          let r := takeDigitsAcc 0 (c2 :: cs2)
          Option.some (-(r.1 : Int), r.2)
        else Option.none
    else
      if isDigitChar c then
        let r := takeDigitsAcc 0 (c :: cs)
        Option.some ((r.1 : Int), r.2)
      else Option.none

/-- Hexadecimal digit value (both cases, as `int(s, 16)`). -/
def hexVal? (c : Char) : Option Nat :=
  if 48 ≤ c.toNat ∧ c.toNat ≤ 57 then Option.some (c.toNat - 48)
  else if 97 ≤ c.toNat ∧ c.toNat ≤ 102 then Option.some (c.toNat - 87)
  else if 65 ≤ c.toNat ∧ c.toNat ≤ 70 then Option.some (c.toNat - 55)
  else Option.none

/-- Four hex digits of a `\uXXXX` escape. -/
def parseHex4 : List Char → Option (Nat × List Char)
  | a :: b :: c :: d :: rest =>
    match hexVal? a, hexVal? b, hexVal? c, hexVal? d with
    | Option.some x, Option.some y, Option.some z, Option.some w =>
      Option.some (x * 4096 + y * 256 + z * 16 + w, rest)
    | _, _, _, _ => Option.none
  | _ => Option.none

/-- The named escapes of `py_scanstring`'s BACKSLASH table. -/
def escUnmap (e : Char) : Option Char :=
  if e = '"' then Option.some '"'
  else if e = '\\' then Option.some '\\'
  else if e = '/' then Option.some '/'
  else if e = 'b' then Option.some (Char.ofNat 8)
  else if e = 'f' then Option.some (Char.ofNat 12)
  else if e = 'n' then Option.some (Char.ofNat 10)
  else if e = 'r' then Option.some (Char.ofNat 13)
  else if e = 't' then Option.some (Char.ofNat 9)
  else Option.none

/-- The `\uXXXX` arm of `py_scanstring`: four hex digits, and when they
name a high surrogate, a mandatory adjacent `\uXXXX` low surrogate that
is combined into one code point.  (CPython keeps a lone surrogate as a
lone-surrogate `str` character; a Lean `Char` cannot represent one, so
the model rejects it — `dumps` output never contains one.) -/
def parseLowSurrogate (u : Nat) (cs3 : List Char) : Option (Char × List Char) :=
  match cs3 with
  | b :: e :: cs4 =>
    if b = '\\' ∧ e = 'u' then
      (parseHex4 cs4).bind fun r =>
        if 56320 ≤ r.1 ∧ r.1 < 57344 then
          Option.some
            (Char.ofNat (65536 + (u - 55296) * 1024 + (r.1 - 56320)), r.2)
        else Option.none
    else Option.none
  | _ => Option.none

/-- The four hex digits and the surrogate dispatch of the `\uXXXX` arm. -/
def parseUnicodeEscape (cs2 : List Char) : Option (Char × List Char) :=
  (parseHex4 cs2).bind fun r =>
    if 55296 ≤ r.1 ∧ r.1 < 56320 then parseLowSurrogate r.1 r.2
    else if 56320 ≤ r.1 ∧ r.1 < 57344 then Option.none
    else Option.some (Char.ofNat r.1, r.2)

/-- `py_scanstring` after the opening quote (strict mode): literal
characters up to the closing quote, named escapes, `\uXXXX` escapes,
raw control characters rejected.  The fuel only bounds the recursion
(one step per produced character). -/
def parseStringAux : Nat → List Char → Option (List Char × List Char)
  | 0, _ => Option.none
  | fuel + 1, cs =>
    match cs with
    | [] => Option.none
    | c :: cs1 =>
      if c = '"' then Option.some ([], cs1)
      else if c = '\\' then
        match cs1 with
        | [] => Option.none
        | e :: cs2 =>
          if e = 'u' then
            (parseUnicodeEscape cs2).bind fun p =>
              (parseStringAux fuel p.2).map fun r => (p.1 :: r.1, r.2)
          else
            match escUnmap e with
            | Option.some c2 => (parseStringAux fuel cs2).map fun r =>
                (c2 :: r.1, r.2)
            | Option.none => Option.none
      else if c.toNat < 32 then Option.none
      else (parseStringAux fuel cs1).map fun r => (c :: r.1, r.2)

mutual
/-- `scan_once`: dispatch on the first character.  The fuel bounds the
nesting/iteration depth; `jsonLoads` supplies more than the input length,
which is always enough. -/
def parseValue : Nat → List Char → Option (JsonVal × List Char)
  | 0, _ => Option.none
  | fuel + 1, cs =>
    match cs with
    | [] => Option.none
    | c :: cs1 =>
      if c = '"' then
        (parseStringAux (cs1.length + 1) cs1).map fun r =>
          (JsonVal.str (String.mk r.1), r.2)
      else if c = lbrace then
        match skipWs cs1 with
        | [] => Option.none
        | c2 :: cs2 =>
          if c2 = rbrace then Option.some (JsonVal.obj JsonMembers.nil, cs2)
          else (parseMembers fuel (c2 :: cs2)).map fun r =>
            (JsonVal.obj r.1, r.2)
      else if c = '[' then
        match skipWs cs1 with
        | [] => Option.none
        | c2 :: cs2 =>
          if c2 = ']' then Option.some (JsonVal.arr JsonItems.nil, cs2)
          else (parseItems fuel (c2 :: cs2)).map fun r =>
            (JsonVal.arr r.1, r.2)
      else if c = 'n' then
        match cs1 with
        | 'u' :: 'l' :: 'l' :: rest => Option.some (JsonVal.null, rest)
        | _ => Option.none
      else if c = 't' then
        match cs1 with
        | 'r' :: 'u' :: 'e' :: rest => Option.some (JsonVal.bool true, rest)
        | _ => Option.none
      else if c = 'f' then
        match cs1 with
        | 'a' :: 'l' :: 's' :: 'e' :: rest =>
          Option.some (JsonVal.bool false, rest)
        | _ => Option.none
      else
        (parseIntFrom (c :: cs1)).map fun r => (JsonVal.num r.1, r.2)

/-- `JSONArray` after a non-`]` first element position. -/
def parseItems : Nat → List Char → Option (JsonItems × List Char)
  | 0, _ => Option.none
  | fuel + 1, cs =>
    (parseValue fuel cs).bind fun r =>
      match skipWs r.2 with
      | [] => Option.none
      | c :: rest =>
        if c = ']' then Option.some (JsonItems.cons r.1 JsonItems.nil, rest)
        else if c = ',' then
          (parseItems fuel (skipWs rest)).map fun t =>
            (JsonItems.cons r.1 t.1, t.2)
        else Option.none

/-- `JSONObject` after a non-`}` first key position. -/
def parseMembers : Nat → List Char → Option (JsonMembers × List Char)
  | 0, _ => Option.none
  | fuel + 1, cs =>
    match cs with
    | [] => Option.none
    | c0 :: cs1 =>
      if c0 = '"' then
        (parseStringAux (cs1.length + 1) cs1).bind fun rk =>
          match skipWs rk.2 with
          | [] => Option.none
          | c1 :: r2 =>
            if c1 = ':' then
              (parseValue fuel (skipWs r2)).bind fun rv =>
                match skipWs rv.2 with
                | [] => Option.none
                | c4 :: r4 =>
                  if c4 = rbrace then
                    Option.some (JsonMembers.cons (String.mk rk.1) rv.1
                      JsonMembers.nil, r4)
                  else if c4 = ',' then
                    (parseMembers fuel (skipWs r4)).map fun t =>
                      (JsonMembers.cons (String.mk rk.1) rv.1 t.1, t.2)
                  else Option.none
            else Option.none
      else Option.none
end

/-- `json.loads`: skip leading whitespace, scan one value, require only
whitespace behind it. -/
def jsonLoads (cs : List Char) : Option JsonVal :=
  match parseValue (cs.length + 1) (skipWs cs) with
  | Option.some (v, r) =>
    if skipWs r = [] then Option.some v else Option.none
  | Option.none => Option.none

/-- Continuation byte test. -/
def isCont (b : Nat) : Bool := 128 ≤ b && b ≤ 191

/-- `bytes.decode("utf-8")`: a strict UTF-8 decoder (overlong encodings,
surrogates and out-of-range lead/continuation bytes are errors). -/
def utf8Decode : List Nat → Option (List Char)
  | [] => Option.some []
  | b :: bs =>
    if b < 128 then (utf8Decode bs).map fun r => Char.ofNat b :: r
    else if 194 ≤ b ∧ b ≤ 223 then
      match bs with
      | [] => Option.none
      | b1 :: bs1 =>
        if isCont b1 then
          (utf8Decode bs1).map fun r =>
            Char.ofNat ((b - 192) * 64 + (b1 - 128)) :: r
        else Option.none
    else if 224 ≤ b ∧ b ≤ 239 then
      match bs with
      | [] => Option.none
      | b1 :: bs1 =>
        match bs1 with
        | [] => Option.none
        | b2 :: bs2 =>
          if isCont b1 && isCont b2 &&
              (decide (b ≠ 224) || decide (160 ≤ b1)) &&
              (decide (b ≠ 237) || decide (b1 < 160)) then
            (utf8Decode bs2).map fun r =>
              Char.ofNat ((b - 224) * 4096 + (b1 - 128) * 64 +
                (b2 - 128)) :: r
          else Option.none
    else if 240 ≤ b ∧ b ≤ 244 then
      match bs with
      | [] => Option.none
      | b1 :: bs1 =>
        match bs1 with
        | [] => Option.none
        | b2 :: bs2 =>
          match bs2 with
          | [] => Option.none
          | b3 :: bs3 =>
            if isCont b1 && isCont b2 && isCont b3 &&
                (decide (b ≠ 240) || decide (144 ≤ b1)) &&
                (decide (b ≠ 244) || decide (b1 < 144)) then
              (utf8Decode bs3).map fun r =>
                Char.ofNat ((b - 240) * 262144 + (b1 - 128) * 4096 +
                  (b2 - 128) * 64 + (b3 - 128)) :: r
            else Option.none
    else Option.none

/-- One `sock.recv(n)` on a chunked byte stream: at most `n` bytes, taken
from the first pending chunk; an exhausted stream (closed socket) yields
`b""`. -/
def recvUpTo (n : Nat) : List (List Nat) → List Nat × List (List Nat)
  | [] => ([], [])
  | c :: rest => if c.length ≤ n then (c, rest) else (c.take n, c.drop n :: rest)

/-- The body loop of `receive_message`: `recv(min(remaining, 4096))`
until `remaining = 0`, failing on an empty read.  The fuel equals the
byte count; every successful read consumes at least one byte. -/
def recvBody : Nat → Nat → List (List Nat) → Option (List Nat × List (List Nat))
  | _, 0, s => Option.some ([], s)
  | 0, _ + 1, _ => Option.none
  | fuel + 1, need + 1, s =>
    let r := recvUpTo (min (need + 1) 4096) s
    if r.1 = [] then Option.none
    else (recvBody fuel ((need + 1) - r.1.length) r.2).map fun t =>
      (r.1 ++ t.1, t.2)

/-- `struct.pack("!I", n)` (defined for `n < 2^32`). -/
def pack32 (n : Nat) : List Nat :=
  [n / 16777216 % 256, n / 65536 % 256, n / 256 % 256, n % 256]

/-- `struct.unpack("!I", h)` on a 4-byte header. -/
def unpack32 : List Nat → Nat
  | [a, b, c, d] => a * 16777216 + b * 65536 + c * 256 + d
  | _ => 0

/-- `send_message`: UTF-8 body of `json.dumps` (pure ASCII under
`ensure_ascii`), 4-byte big-endian length prefix; `none` models the
`False` return when `struct.pack` overflows (message over `2^32-1`
bytes). -/
def send_message (m : JsonVal) : Option (List Nat) :=
  let body := (dump m).map Char.toNat
  if body.length < 4294967296 then Option.some (pack32 body.length ++ body)
  else Option.none

/-- `receive_message` over a chunked stream: one `recv(4)` for the
header (not looped — a short first read is a `struct.unpack` error, not
retried), the body loop, then UTF-8 decode and `json.loads`; every
failure path returns `None`. -/
def receive_message (s : List (List Nat)) : Option JsonVal :=
  let h := recvUpTo 4 s
  if h.1 = [] then Option.none
  else if h.1.length ≠ 4 then Option.none
  else
    match recvBody (unpack32 h.1) (unpack32 h.1) h.2 with
    | Option.none => Option.none
    | Option.some (body, _) =>
      match utf8Decode body with
      | Option.none => Option.none
      | Option.some cs => jsonLoads cs

example : utf8Decode [255] = Option.none := rfl

example : receive_message [[0, 0], [0, 2, 123, 125]] = Option.none := rfl

example : receive_message [[0, 0, 0, 2, 123, 125]] =
    Option.some (JsonVal.obj JsonMembers.nil) := rfl

example : receive_message [[0, 0, 0, 4], [110, 117, 108, 108]] =
    Option.some JsonVal.null := rfl

example : send_message (JsonVal.obj JsonMembers.nil) =
    Option.some [0, 0, 0, 2, 123, 125] := rfl

/-! ## Number round trip -/

theorem digitChar48_isDigit (d : Nat) (h : d < 10) :
    isDigitChar (digitChar48 d) = true := by
  interval_cases d <;> decide

theorem digitChar48_val (d : Nat) (h : d < 10) :
    digitVal (digitChar48 d) = d := by
  interval_cases d <;> decide

theorem natReprAux_irrel : ∀ (f1 f2 n : Nat), n < f1 → n < f2 →
    natReprAux f1 n = natReprAux f2 n := by
  intro f1
  induction f1 with
  | zero => intro f2 n h; omega
  | succ f1 ih =>
    intro f2 n h1 h2
    match f2 with
    | 0 => omega
    | f2 + 1 =>
      by_cases hn : n < 10
      · simp [natReprAux, hn]
      · have hd : n / 10 < n := Nat.div_lt_self (by omega) (by omega)
        simp only [natReprAux, hn, if_false]
        rw [ih f2 (n / 10) (by omega) (by omega)]

theorem natRepr_lt10 (n : Nat) (h : n < 10) :
    natRepr n = [digitChar48 n] := by
  simp [natRepr, natReprAux, h]

theorem natRepr_ge10 (n : Nat) (h : 10 ≤ n) :
    natRepr n = natRepr (n / 10) ++ [digitChar48 (n % 10)] := by
  have hd : n / 10 < n := Nat.div_lt_self (by omega) (by omega)
  unfold natRepr
  simp only [natReprAux, Nat.not_lt.mpr h, if_false]
  rw [natReprAux_irrel n (n / 10 + 1) (n / 10) hd (by omega)]
  rfl

theorem natRepr_head : ∀ n : Nat, ∃ c cs, natRepr n = c :: cs ∧
    isDigitChar c = true := by
  intro n
  induction n using Nat.strong_induction_on with
  | _ n ih =>
    by_cases h : n < 10
    · exact ⟨digitChar48 n, [], natRepr_lt10 n h, digitChar48_isDigit n h⟩
    · have hd : n / 10 < n := Nat.div_lt_self (by omega) (by omega)
      obtain ⟨c, cs, hc, hdig⟩ := ih (n / 10) hd
      refine ⟨c, cs ++ [digitChar48 (n % 10)], ?_, hdig⟩
      rw [natRepr_ge10 n (by omega), hc]
      simp

/-- Head-of-rest digit test (what stops the greedy digit run). -/
def headDigit : List Char → Bool
  | [] => false
  | c :: _ => isDigitChar c

theorem takeDigitsAcc_stop (acc : Nat) (rest : List Char)
    (h : headDigit rest = false) : takeDigitsAcc acc rest = (acc, rest) := by
  cases rest with
  | nil => rfl
  | cons c t =>
    simp only [headDigit] at h
    simp [takeDigitsAcc, h]

theorem takeDigitsAcc_natRepr : ∀ (n acc : Nat) (rest : List Char),
    takeDigitsAcc acc (natRepr n ++ rest) =
      takeDigitsAcc (acc * 10 ^ (natRepr n).length + n) rest := by
  intro n
  induction n using Nat.strong_induction_on with
  | _ n ih =>
    intro acc rest
    by_cases h : n < 10
    · rw [natRepr_lt10 n h]
      simp only [List.cons_append, List.nil_append, takeDigitsAcc,
        digitChar48_isDigit n h, if_true, digitChar48_val n h,
        List.length_singleton, pow_one]
      rfl
    · have hd : n / 10 < n := Nat.div_lt_self (by omega) (by omega)
      rw [natRepr_ge10 n (by omega)]
      rw [List.append_assoc, List.singleton_append, ih (n / 10) hd]
      have hdig := digitChar48_isDigit (n % 10) (Nat.mod_lt _ (by omega))
      have hval := digitChar48_val (n % 10) (Nat.mod_lt _ (by omega))
      simp only [takeDigitsAcc, hdig, if_true, hval]
      have harith : (acc * 10 ^ (natRepr (n / 10)).length + n / 10) * 10 +
          n % 10 = acc * 10 ^ (natRepr (n / 10) ++
            [digitChar48 (n % 10)]).length + n := by
        rw [List.length_append, List.length_singleton, pow_succ]
        have hmod := Nat.div_add_mod n 10
        ring_nf
        omega
      rw [harith]

theorem takeDigits_natRepr_value (n : Nat) (rest : List Char)
    (h : headDigit rest = false) :
    takeDigitsAcc 0 (natRepr n ++ rest) = (n, rest) := by
  rw [takeDigitsAcc_natRepr, Nat.zero_mul, Nat.zero_add,
    takeDigitsAcc_stop _ _ h]

theorem isDigit_ne_minus (c : Char) (h : isDigitChar c = true) :
    (c = '-') = False := by
  simp only [eq_iff_iff, iff_false]
  intro he
  subst he
  simp [isDigitChar] at h

/-- Parsing inverts `str(n)` for any integer when no digit follows. -/
theorem parseIntFrom_intRepr (n : Int) (rest : List Char)
    (h : headDigit rest = false) :
    parseIntFrom (intRepr n ++ rest) = Option.some (n, rest) := by
  by_cases hn : n < 0
  · have hm := natRepr_head (-n).toNat
    obtain ⟨c, cs, hc, hdig⟩ := hm
    simp only [intRepr, hn, if_true, List.cons_append]
    simp only [parseIntFrom, if_pos rfl]
    rw [hc]
    simp only [List.cons_append]
    rw [show (c :: (cs ++ rest)) = (c :: cs) ++ rest from rfl, ← hc]
    simp only [hdig, if_true]
    rw [takeDigits_natRepr_value _ _ h]
    show Option.some (-((((-n).toNat : Nat) : Int)), rest) =
      Option.some (n, rest)
    rw [Int.toNat_of_nonneg (by omega), neg_neg]
  · have hm := natRepr_head n.toNat
    obtain ⟨c, cs, hc, hdig⟩ := hm
    simp only [intRepr, hn, if_false]
    rw [hc]
    simp only [List.cons_append, parseIntFrom, isDigit_ne_minus c hdig,
      if_false, hdig, if_true]
    rw [show (c :: (cs ++ rest)) = (c :: cs) ++ rest from rfl, ← hc]
    rw [takeDigits_natRepr_value _ _ h]
    show Option.some (((n.toNat : Nat) : Int), rest) = Option.some (n, rest)
    rw [Int.toNat_of_nonneg (by omega)]

/-! ## String escape round trip -/

theorem hexVal_hexDigitChar (d : Nat) (h : d < 16) :
    hexVal? (hexDigitChar d) = Option.some d := by
  interval_cases d <;> decide

theorem parseHex4_hex4 (v : Nat) (h : v < 65536) (rest : List Char) :
    parseHex4 (hex4 v ++ rest) = Option.some (v, rest) := by
  have h3 : v / 4096 % 16 < 16 := Nat.mod_lt _ (by omega)
  have h2 : v / 256 % 16 < 16 := Nat.mod_lt _ (by omega)
  have h1 : v / 16 % 16 < 16 := Nat.mod_lt _ (by omega)
  have h0 : v % 16 < 16 := Nat.mod_lt _ (by omega)
  simp only [hex4, List.cons_append, List.nil_append, parseHex4,
    hexVal_hexDigitChar _ h3, hexVal_hexDigitChar _ h2,
    hexVal_hexDigitChar _ h1, hexVal_hexDigitChar _ h0]
  congr 1
  congr 1
  omega

/-- A valid character's code point is never a surrogate and stays below
`0x110000`. -/
theorem char_toNat_valid (c : Char) :
    c.toNat < 55296 ∨ (57344 ≤ c.toNat ∧ c.toNat < 1114112) := by
  have h := c.valid
  unfold UInt32.isValidChar at h
  exact h

theorem char_ofNat_toNat_eq (n : Nat) (h : n.isValidChar) :
    (Char.ofNat n).toNat = n := by
  unfold Char.ofNat
  split
  · rfl
  · exact absurd h (by assumption)

/-- The `\uXXXX` arm inverts `hex4` for a non-surrogate code point. -/
theorem parseUnicodeEscape_bmp (u : Nat) (hu : u < 65536)
    (h1 : ¬ (55296 ≤ u ∧ u < 56320)) (h2 : ¬ (56320 ≤ u ∧ u < 57344))
    (rest : List Char) :
    parseUnicodeEscape (hex4 u ++ rest) =
      Option.some (Char.ofNat u, rest) := by
  rw [parseUnicodeEscape, parseHex4_hex4 u hu rest]
  simp [h1, h2]

/-- The `\uXXXX` arm combines the surrogate pair of an astral code
point. -/
theorem parseUnicodeEscape_pair (v : Nat) (h1 : 65536 ≤ v)
    (h2 : v < 1114112) (rest : List Char) :
    parseUnicodeEscape (hex4 (55296 + (v - 65536) / 1024) ++
        ('\\' :: 'u' :: (hex4 (56320 + (v - 65536) % 1024) ++ rest))) =
      Option.some (Char.ofNat v, rest) := by
  have hhi : 55296 + (v - 65536) / 1024 < 56320 := by omega
  have hlo : 56320 + (v - 65536) % 1024 < 57344 := by
    have := Nat.mod_lt (v - 65536) (show 0 < 1024 by omega)
    omega
  rw [parseUnicodeEscape, parseHex4_hex4 (55296 + (v - 65536) / 1024)
    (by omega) ('\\' :: 'u' :: (hex4 (56320 + (v - 65536) % 1024) ++ rest))]
  rw [Option.some_bind]
  rw [if_pos (And.intro (by omega : 55296 ≤ 55296 + (v - 65536) / 1024) hhi)]
  rw [parseLowSurrogate]
  rw [if_pos (And.intro rfl rfl)]
  rw [parseHex4_hex4 (56320 + (v - 65536) % 1024) (by omega) rest]
  rw [Option.some_bind]
  rw [if_pos (And.intro
    (by omega : 56320 ≤ 56320 + (v - 65536) % 1024) hlo)]
  have hcomb : 65536 + (55296 + (v - 65536) / 1024 - 55296) * 1024 +
      (56320 + (v - 65536) % 1024 - 56320) = v := by
    have := Nat.div_add_mod (v - 65536) 1024
    omega
  rw [hcomb]

/-- Parsing one escaped character prepends it to the rest of the string
parse. -/
theorem parseStringAux_escChar (c : Char) (tail : List Char) (fuel : Nat)
    (s : List Char) (rest : List Char)
    (htail : parseStringAux fuel tail = Option.some (s, rest)) :
    parseStringAux (fuel + 1) (escChar c ++ tail) =
      Option.some (c :: s, rest) := by
  by_cases hq : c = '"'
  · subst hq
    simp [escChar, parseStringAux, escUnmap, htail]
  · by_cases hb : c = '\\'
    · subst hb
      simp [escChar, parseStringAux, escUnmap, htail]
    · by_cases h8 : c.toNat = 8
      · have hc : c = Char.ofNat 8 := by rw [← Char.ofNat_toNat c, h8]
        subst hc
        simp [escChar, parseStringAux, escUnmap, htail]
      · by_cases h9 : c.toNat = 9
        · have hc : c = Char.ofNat 9 := by rw [← Char.ofNat_toNat c, h9]
          subst hc
          simp [escChar, parseStringAux, escUnmap, htail]
        · by_cases h10 : c.toNat = 10
          · have hc : c = Char.ofNat 10 := by rw [← Char.ofNat_toNat c, h10]
            subst hc
            simp [escChar, parseStringAux, escUnmap, htail]
          · by_cases h12 : c.toNat = 12
            · have hc : c = Char.ofNat 12 := by
                rw [← Char.ofNat_toNat c, h12]
              subst hc
              simp [escChar, parseStringAux, escUnmap, htail]
            · by_cases h13 : c.toNat = 13
              · have hc : c = Char.ofNat 13 := by
                  rw [← Char.ofNat_toNat c, h13]
                subst hc
                simp [escChar, parseStringAux, escUnmap, htail]
              · by_cases hout : c.toNat < 32 ∨ 126 < c.toNat
                · by_cases hbmp : c.toNat < 65536
                  · have hnosur : ¬ (55296 ≤ c.toNat ∧ c.toNat < 56320) := by
                      rcases char_toNat_valid c with hv | hv <;> omega
                    have hnosur2 : ¬ (56320 ≤ c.toNat ∧ c.toNat < 57344) := by
                      rcases char_toNat_valid c with hv | hv <;> omega
                    have hesc : escChar c = '\\' :: 'u' :: hex4 c.toNat := by
                      simp [escChar, hq, hb, h8, h9, h10, h12, h13, hout, hbmp]
                    rw [hesc]
                    simp only [List.cons_append, parseStringAux]
                    rw [parseUnicodeEscape_bmp c.toNat hbmp hnosur hnosur2
                      tail]
                    simp [htail, Char.ofNat_toNat]
                  · have hlt : c.toNat < 1114112 := by
                      rcases char_toNat_valid c with hv | hv <;> omega
                    have hesc : escChar c =
                        ('\\' :: 'u' :: hex4 (55296 + (c.toNat - 65536) / 1024)) ++
                        ('\\' :: 'u' :: hex4 (56320 + (c.toNat - 65536) % 1024)) := by
                      simp [escChar, hq, hb, h8, h9, h10, h12, h13, hout, hbmp]
                    rw [hesc]
                    simp only [List.cons_append, List.append_assoc,
                      parseStringAux]
                    rw [parseUnicodeEscape_pair c.toNat (by omega) hlt tail]
                    simp [htail, Char.ofNat_toNat]
                · have hlit : escChar c = [c] := by
                    simp [escChar, hq, hb, h8, h9, h10, h12, h13, hout]
                  rw [hlit]
                  simp only [List.cons_append, List.nil_append, parseStringAux,
                    hq, if_false, hb, if_false]
                  have hctl : ¬ c.toNat < 32 := by omega
                  simp [hctl, htail]

/-- Parsing inverts the escaping of a whole string body. -/
theorem parseStringAux_escList : ∀ (s : List Char) (rest : List Char)
    (fuel : Nat), s.length < fuel →
    parseStringAux fuel (escList s ++ '"' :: rest) =
      Option.some (s, rest) := by
  intro s
  induction s with
  | nil =>
    intro rest fuel h
    match fuel, h with
    | fuel + 1, _ => simp [escList, parseStringAux]
  | cons c s ih =>
    intro rest fuel h
    match fuel, h with
    | fuel + 1, h =>
      have htail := ih rest fuel (by simpa using Nat.lt_of_succ_lt_succ h)
      have := parseStringAux_escChar c (escList s ++ '"' :: rest) fuel s rest
        htail
      simpa [escList, List.append_assoc] using this

/-- Every escape is at least one character long, so the whole escaped
body is at least as long as the string. -/
theorem escList_length_ge : ∀ s : List Char, s.length ≤ (escList s).length := by
  intro s
  induction s with
  | nil => simp [escList]
  | cons c s ih =>
    have h1 : 1 ≤ (escChar c).length := by
      unfold escChar
      repeat' split
      all_goals simp
    simp only [escList, List.length_append, List.length_cons]
    omega

/-! ## Head-character and whitespace facts -/

theorem char_ne_of_toNat_ne {c d : Char} (h : ¬ c.toNat = d.toNat) :
    ¬ c = d := fun he => h (congrArg Char.toNat he)

theorem skipWs_not_ws {c : Char} (t : List Char) (h : isWsChar c = false) :
    skipWs (c :: t) = c :: t := by
  simp [skipWs, h]

theorem skipWs_space (t : List Char) : skipWs (' ' :: t) = skipWs t := by
  simp [skipWs, isWsChar]

/-- Characters that may open a number (a digit or the minus sign) are not
special: not a quote, bracket, brace, literal head, whitespace or a
closing bracket. -/
theorem num_head_facts (c : Char)
    (h : isDigitChar c = true ∨ c = '-') :
    (c = '"') = False ∧ (c = lbrace) = False ∧ (c = '[') = False ∧
    (c = 'n') = False ∧ (c = 't') = False ∧ (c = 'f') = False ∧
    isWsChar c = false ∧ (c = ']') = False := by
  have hb : (48 ≤ c.toNat ∧ c.toNat ≤ 57) ∨ c.toNat = 45 := by
    rcases h with h | h
    · left
      simpa [isDigitChar] using h
    · right
      rw [h]
      rfl
  have hne : ∀ d : Char, ¬ c.toNat = d.toNat → (c = d) = False := by
    intro d hd
    simp only [eq_iff_iff, iff_false]
    exact char_ne_of_toNat_ne hd
  refine ⟨hne _ ?_, hne _ ?_, hne _ ?_, hne _ ?_, hne _ ?_, hne _ ?_, ?_, hne _ ?_⟩
  · show ¬ c.toNat = 34
    omega
  · show ¬ c.toNat = 123
    omega
  · show ¬ c.toNat = 91
    omega
  · show ¬ c.toNat = 110
    omega
  · show ¬ c.toNat = 116
    omega
  · show ¬ c.toNat = 102
    omega
  · simp only [isWsChar, Bool.or_eq_false_iff, decide_eq_false_iff_not]
    refine ⟨⟨⟨?_, ?_⟩, ?_⟩, ?_⟩
    · intro he
      have := congrArg Char.toNat he
      rw [show (' ' : Char).toNat = 32 from rfl] at this
      omega
    · omega
    · omega
    · omega
  · show ¬ c.toNat = 93
    omega

/-- `str(n)` of an integer starts with a digit or the minus sign. -/
theorem intRepr_head (n : Int) : ∃ c cs, intRepr n = c :: cs ∧
    (isDigitChar c = true ∨ c = '-') := by
  by_cases hn : n < 0
  · exact ⟨'-', natRepr (-n).toNat, by simp [intRepr, hn], Or.inr rfl⟩
  · obtain ⟨c, cs, hc, hd⟩ := natRepr_head n.toNat
    exact ⟨c, cs, by simp [intRepr, hn, hc], Or.inl hd⟩

/-- The first character of any `dump` output is not whitespace and not a
closing bracket. -/
theorem dump_head (v : JsonVal) : ∃ c t, dump v = c :: t ∧
    isWsChar c = false ∧ (c = ']') = False := by
  cases v with
  | null => exact ⟨'n', _, rfl, by decide, by decide⟩
  | bool b => cases b with
    | true => exact ⟨'t', _, rfl, by decide, by decide⟩
    | false => exact ⟨'f', _, rfl, by decide, by decide⟩
  | num n =>
    obtain ⟨c, cs, hc, hd⟩ := intRepr_head n
    obtain ⟨_, _, _, _, _, _, hws, hbr⟩ := num_head_facts c hd
    exact ⟨c, cs, hc, hws, hbr⟩
  | str s => exact ⟨'"', _, rfl, by decide, by decide⟩
  | arr xs => cases xs with
    | nil => exact ⟨'[', _, rfl, by decide, by decide⟩
    | cons x t => exact ⟨'[', _, rfl, by decide, by decide⟩
  | obj ms => cases ms with
    | nil => exact ⟨lbrace, _, rfl, by decide, by decide⟩
    | cons k v2 t => exact ⟨lbrace, _, rfl, by decide, by decide⟩

/-- `skipWs` does not touch a `dump` output. -/
theorem skipWs_dump (v : JsonVal) (rest : List Char) :
    skipWs (dump v ++ rest) = dump v ++ rest := by
  obtain ⟨c, t, hc, hws, _⟩ := dump_head v
  rw [hc, List.cons_append, skipWs_not_ws _ hws]

/-- `dump` output is non-empty. -/
theorem dump_length_pos (v : JsonVal) : 1 ≤ (dump v).length := by
  obtain ⟨c, t, hc, _, _⟩ := dump_head v
  rw [hc]
  simp

/-- The scanner inverts `json.dumps` output: one strong induction over
the fuel covering values, array continuations and object continuations
simultaneously. -/
theorem parse_dump_all : ∀ fuel : Nat,
    (∀ v rest, (dump v).length ≤ fuel → headDigit rest = false →
      parseValue fuel (dump v ++ rest) = Option.some (v, rest)) ∧
    (∀ x xs rest, (dump x).length + (dumpItems xs).length + 1 ≤ fuel →
      parseItems fuel ((dump x ++ dumpItems xs) ++ ']' :: rest) =
        Option.some (JsonItems.cons x xs, rest)) ∧
    (∀ k v ms rest, (dump v).length + (dumpMembers ms).length + 1 ≤ fuel →
      parseMembers fuel
        ((dumpString k ++ ':' :: ' ' :: (dump v ++ dumpMembers ms)) ++
          rbrace :: rest) =
        Option.some (JsonMembers.cons k v ms, rest)) := by
  intro fuel
  induction fuel using Nat.strong_induction_on with
  | _ fuel ih =>
  have ihV : ∀ m, m < fuel → ∀ v rest, (dump v).length ≤ m →
      headDigit rest = false →
      parseValue m (dump v ++ rest) = Option.some (v, rest) :=
    fun m hm => (ih m hm).1
  have ihI : ∀ m, m < fuel → ∀ x xs rest,
      (dump x).length + (dumpItems xs).length + 1 ≤ m →
      parseItems m ((dump x ++ dumpItems xs) ++ ']' :: rest) =
        Option.some (JsonItems.cons x xs, rest) :=
    fun m hm => (ih m hm).2.1
  have ihM : ∀ m, m < fuel → ∀ k v ms rest,
      (dump v).length + (dumpMembers ms).length + 1 ≤ m →
      parseMembers m
        ((dumpString k ++ ':' :: ' ' :: (dump v ++ dumpMembers ms)) ++
          rbrace :: rest) = Option.some (JsonMembers.cons k v ms, rest) :=
    fun m hm => (ih m hm).2.2
  refine ⟨?_, ?_, ?_⟩
  · intro v rest hlen hr
    have hpos := dump_length_pos v
    obtain ⟨f, rfl⟩ : ∃ f, fuel = f + 1 := ⟨fuel - 1, by omega⟩
    cases v with
    | null => rfl
    | bool b => cases b <;> rfl
    | num n =>
      obtain ⟨c, cs, hc, hd⟩ := intRepr_head n
      obtain ⟨f1, f2, f3, f4, f5, f6, _, _⟩ := num_head_facts c hd
      have hds : dump (JsonVal.num n) = intRepr n := rfl
      rw [hds, hc, List.cons_append]
      simp only [parseValue, f1, f2, f3, f4, f5, f6, if_false]
      rw [show c :: (cs ++ rest) = (c :: cs) ++ rest from rfl, ← hc]
      rw [parseIntFrom_intRepr n rest hr]
      rfl
    | str s =>
      have hds : dump (JsonVal.str s) ++ rest =
          '"' :: (escList s.data ++ '"' :: rest) := by
        simp [dump, dumpString]
      rw [hds]
      simp only [parseValue, if_pos rfl]
      have hlt : s.data.length <
          (escList s.data ++ '"' :: rest).length + 1 := by
        have := escList_length_ge s.data
        simp only [List.length_append, List.length_cons]
        omega
      rw [parseStringAux_escList s.data rest _ hlt]
      cases s
      rfl
    | arr xs =>
      cases xs with
      | nil => rfl
      | cons x t =>
        have hds : dump (JsonVal.arr (JsonItems.cons x t)) ++ rest =
            '[' :: ((dump x ++ dumpItems t) ++ ']' :: rest) := by
          simp [dump]
        rw [hds]
        simp only [parseValue, if_true, if_false]
        obtain ⟨c, ct, hct, hws, hbr⟩ := dump_head x
        rw [show (dump x ++ dumpItems t) ++ ']' :: rest =
            c :: (ct ++ (dumpItems t ++ ']' :: rest)) by
          rw [hct]
          simp]
        rw [skipWs_not_ws _ hws]
        simp only [hbr, Bool.false_eq_true, if_false]
        rw [show c :: (ct ++ (dumpItems t ++ ']' :: rest)) =
            (dump x ++ dumpItems t) ++ ']' :: rest by
          rw [hct]
          simp]
        have hlen2 : (dump x).length + (dumpItems t).length + 1 ≤ f := by
          have hdl : (dump (JsonVal.arr (JsonItems.cons x t))).length =
              2 + (dump x).length + (dumpItems t).length := by
            simp [dump]
            omega
          omega
        rw [ihI f (Nat.lt_succ_self f) x t rest hlen2]
        rfl
    | obj ms =>
      cases ms with
      | nil => rfl
      | cons k v2 t =>
        have hds : dump (JsonVal.obj (JsonMembers.cons k v2 t)) ++ rest =
            lbrace :: ((dumpString k ++ ':' :: ' ' :: (dump v2 ++
              dumpMembers t)) ++ rbrace :: rest) := by
          simp [dump]
        rw [hds]
        simp only [parseValue, if_true, if_false]
        rw [show (dumpString k ++ ':' :: ' ' :: (dump v2 ++ dumpMembers t))
            ++ rbrace :: rest = '"' :: ((escList k.data ++ ['"']) ++
              (':' :: ' ' :: (dump v2 ++ dumpMembers t) ++ rbrace :: rest))
            by simp [dumpString]]
        rw [skipWs_not_ws _ (by decide)]
        show (parseMembers f (('"' : Char) :: ((escList k.data ++ ['"']) ++
            (':' :: ' ' :: (dump v2 ++ dumpMembers t) ++
              rbrace :: rest)))).map
          (fun r => (JsonVal.obj r.1, r.2)) =
          Option.some (JsonVal.obj (JsonMembers.cons k v2 t), rest)
        rw [show ('"' : Char) :: ((escList k.data ++ ['"']) ++
            (':' :: ' ' :: (dump v2 ++ dumpMembers t) ++ rbrace :: rest)) =
            (dumpString k ++ ':' :: ' ' :: (dump v2 ++ dumpMembers t)) ++
              rbrace :: rest by simp [dumpString]]
        have hlen2 : (dump v2).length + (dumpMembers t).length + 1 ≤ f := by
          have hdl : (dump (JsonVal.obj (JsonMembers.cons k v2 t))).length =
              1 + ((dumpString k).length + (2 + ((dump v2).length +
                (dumpMembers t).length)) + 1) := by
            simp [dump]
            omega
          have hk : 2 ≤ (dumpString k).length := by
            simp [dumpString]
          omega
        rw [ihM f (Nat.lt_succ_self f) k v2 t rest hlen2]
        rfl
  · intro x xs rest hb
    obtain ⟨f, rfl⟩ : ∃ f, fuel = f + 1 := ⟨fuel - 1, by omega⟩
    have hrest : headDigit (dumpItems xs ++ ']' :: rest) = false := by
      cases xs with
      | nil => rfl
      | cons y t => rfl
    have hv := ihV f (Nat.lt_succ_self f) x (dumpItems xs ++ ']' :: rest)
      (by omega) hrest
    simp only [parseItems]
    rw [List.append_assoc, hv, Option.some_bind]
    cases xs with
    | nil =>
      simp only [dumpItems, List.nil_append]
      rw [skipWs_not_ws _ (by decide)]
      rfl
    | cons y t =>
      rw [show dumpItems (JsonItems.cons y t) ++ ']' :: rest =
          ',' :: ' ' :: (dump y ++ (dumpItems t ++ ']' :: rest)) by
        simp [dumpItems]]
      rw [skipWs_not_ws _ (by decide)]
      show (parseItems f (skipWs (' ' ::
          (dump y ++ (dumpItems t ++ ']' :: rest))))).map
        (fun t2 => (JsonItems.cons x t2.1, t2.2)) =
        Option.some (JsonItems.cons x (JsonItems.cons y t), rest)
      rw [skipWs_space, skipWs_dump y (dumpItems t ++ ']' :: rest)]
      rw [← List.append_assoc]
      have hlen2 : (dump y).length + (dumpItems t).length + 1 ≤ f := by
        have hdl : (dumpItems (JsonItems.cons y t)).length =
            2 + (dump y).length + (dumpItems t).length := by
          simp [dumpItems]
          omega
        omega
      rw [ihI f (Nat.lt_succ_self f) y t rest hlen2]
      rfl
  · intro k v ms rest hb
    obtain ⟨f, rfl⟩ : ∃ f, fuel = f + 1 := ⟨fuel - 1, by omega⟩
    rw [show (dumpString k ++ ':' :: ' ' :: (dump v ++ dumpMembers ms)) ++
        rbrace :: rest = '"' :: (escList k.data ++ '"' ::
          (':' :: ' ' :: ((dump v ++ dumpMembers ms) ++ rbrace :: rest)))
        by simp [dumpString]]
    simp only [parseMembers, if_true, if_false]
    have hlt : k.data.length < (escList k.data ++ '"' ::
        (':' :: ' ' :: ((dump v ++ dumpMembers ms) ++
          rbrace :: rest))).length + 1 := by
      have := escList_length_ge k.data
      simp only [List.length_append, List.length_cons]
      omega
    rw [parseStringAux_escList k.data _ _ hlt, Option.some_bind]
    show (match skipWs (':' :: ' ' :: ((dump v ++ dumpMembers ms) ++
        rbrace :: rest)) with
      | [] => Option.none
      | c1 :: r2 =>
        if c1 = ':' then
          (parseValue f (skipWs r2)).bind fun rv =>
            match skipWs rv.2 with
            | [] => Option.none
            | c4 :: r4 =>
              if c4 = rbrace then
                Option.some (JsonMembers.cons (String.mk k.data) rv.1
                  JsonMembers.nil, r4)
              else if c4 = ',' then
                (parseMembers f (skipWs r4)).map fun t =>
                  (JsonMembers.cons (String.mk k.data) rv.1 t.1, t.2)
              else Option.none
        else Option.none) =
      Option.some (JsonMembers.cons k v ms, rest)
    rw [skipWs_not_ws _ (by decide)]
    show (parseValue f (skipWs (' ' :: ((dump v ++ dumpMembers ms) ++
        rbrace :: rest)))).bind (fun rv =>
      match skipWs rv.2 with
      | [] => Option.none
      | c4 :: r4 =>
        if c4 = rbrace then
          Option.some (JsonMembers.cons (String.mk k.data) rv.1
            JsonMembers.nil, r4)
        else if c4 = ',' then
          (parseMembers f (skipWs r4)).map fun t =>
            (JsonMembers.cons (String.mk k.data) rv.1 t.1, t.2)
        else Option.none) =
      Option.some (JsonMembers.cons k v ms, rest)
    rw [skipWs_space, List.append_assoc,
      skipWs_dump v (dumpMembers ms ++ rbrace :: rest)]
    have hrest : headDigit (dumpMembers ms ++ rbrace :: rest) = false := by
      cases ms with
      | nil => rfl
      | cons k2 v2 t => rfl
    rw [ihV f (Nat.lt_succ_self f) v (dumpMembers ms ++ rbrace :: rest)
      (by omega) hrest]
    rw [Option.some_bind]
    cases ms with
    | nil =>
      simp only [dumpMembers, List.nil_append]
      rw [skipWs_not_ws _ (by decide)]
      cases k
      rfl
    | cons k2 v2 t =>
      rw [show dumpMembers (JsonMembers.cons k2 v2 t) ++ rbrace :: rest =
          ',' :: ' ' :: ((dumpString k2 ++ ':' :: ' ' ::
            (dump v2 ++ dumpMembers t)) ++ rbrace :: rest) by
        simp [dumpMembers]]
      rw [skipWs_not_ws _ (by decide)]
      show (parseMembers f (skipWs (' ' :: ((dumpString k2 ++ ':' :: ' ' ::
          (dump v2 ++ dumpMembers t)) ++ rbrace :: rest)))).map
        (fun t2 => (JsonMembers.cons (String.mk k.data) v t2.1, t2.2)) =
        Option.some (JsonMembers.cons k v (JsonMembers.cons k2 v2 t), rest)
      rw [skipWs_space]
      rw [show (dumpString k2 ++ ':' :: ' ' ::
          (dump v2 ++ dumpMembers t)) ++ rbrace :: rest =
          '"' :: ((escList k2.data ++ ['"']) ++ (':' :: ' ' ::
            (dump v2 ++ dumpMembers t) ++ rbrace :: rest)) by
        simp [dumpString]]
      rw [skipWs_not_ws _ (by decide)]
      rw [show ('"' : Char) :: ((escList k2.data ++ ['"']) ++ (':' :: ' ' ::
          (dump v2 ++ dumpMembers t) ++ rbrace :: rest)) =
          (dumpString k2 ++ ':' :: ' ' :: (dump v2 ++ dumpMembers t)) ++
            rbrace :: rest by simp [dumpString]]
      have hlen2 : (dump v2).length + (dumpMembers t).length + 1 ≤ f := by
        have hdl : (dumpMembers (JsonMembers.cons k2 v2 t)).length =
            2 + ((dumpString k2).length + (2 + ((dump v2).length +
              (dumpMembers t).length))) := by
          simp [dumpMembers]
          omega
        omega
      rw [ihM f (Nat.lt_succ_self f) k2 v2 t rest hlen2]
      cases k
      rfl

/-! ## Full decode of an encoded value -/

/-- `json.loads (json.dumps v)` recovers `v`. -/
theorem jsonLoads_dump (v : JsonVal) : jsonLoads (dump v) = Option.some v := by
  unfold jsonLoads
  have h1 : skipWs (dump v) = dump v := by
    have h := skipWs_dump v []
    simpa using h
  rw [h1]
  have h2 := (parse_dump_all ((dump v).length + 1)).1 v []
    (by omega) rfl
  rw [List.append_nil] at h2
  rw [h2]
  rfl

/-! ## `ensure_ascii` output is ASCII -/

theorem digitChar48_ascii (d : Nat) : (digitChar48 d).toNat < 128 := by
  unfold digitChar48
  split <;> decide

theorem hexDigitChar_ascii (d : Nat) : (hexDigitChar d).toNat < 128 := by
  unfold hexDigitChar
  split <;> decide

theorem natReprAux_ascii : ∀ f n c, c ∈ natReprAux f n → c.toNat < 128 := by
  intro f
  induction f with
  | zero =>
    intro n c h
    simp [natReprAux] at h
  | succ f ih =>
    intro n c h
    simp only [natReprAux] at h
    by_cases hn : n < 10
    · rw [if_pos hn] at h
      simp only [List.mem_singleton] at h
      subst h
      exact digitChar48_ascii n
    · rw [if_neg hn] at h
      rcases List.mem_append.mp h with h2 | h2
      · exact ih _ _ h2
      · simp only [List.mem_singleton] at h2
        subst h2
        exact digitChar48_ascii (n % 10)

theorem intRepr_ascii (n : Int) (c : Char) (h : c ∈ intRepr n) :
    c.toNat < 128 := by
  unfold intRepr at h
  split at h
  · rcases List.mem_cons.mp h with rfl | h2
    · decide
    · exact natReprAux_ascii _ _ _ h2
  · exact natReprAux_ascii _ _ _ h

theorem hex4_ascii (v : Nat) (c : Char) (h : c ∈ hex4 v) : c.toNat < 128 := by
  unfold hex4 at h
  simp only [List.mem_cons, List.not_mem_nil, or_false] at h
  rcases h with h | h | h | h <;> (subst h; exact hexDigitChar_ascii _)

theorem escChar_ascii (c c2 : Char) (h : c2 ∈ escChar c) : c2.toNat < 128 := by
  unfold escChar at h
  repeat' split at h
  all_goals
    simp only [List.mem_cons, List.mem_append, List.not_mem_nil,
      or_false] at h
  all_goals
    repeat' first
      | exact hex4_ascii _ _ h
      | (rcases h with h | h)
      | (subst h; first | decide | omega)
      | decide
      | omega

theorem escList_ascii : ∀ l : List Char, ∀ c2 ∈ escList l, c2.toNat < 128 := by
  intro l
  induction l with
  | nil =>
    intro c2 h
    simp [escList] at h
  | cons c cs ih =>
    intro c2 h
    simp only [escList] at h
    rcases List.mem_append.mp h with h2 | h2
    · exact escChar_ascii c c2 h2
    · exact ih c2 h2

theorem dumpString_ascii (s : String) : ∀ c ∈ dumpString s, c.toNat < 128 := by
  intro c h
  unfold dumpString at h
  rcases List.mem_cons.mp h with rfl | h2
  · decide
  rcases List.mem_append.mp h2 with h3 | h3
  · exact escList_ascii s.data c h3
  · simp only [List.mem_singleton] at h3
    subst h3
    decide

/-- Every character of a `json.dumps` output is ASCII (the
`ensure_ascii=True` default), proved over values, array continuations
and object continuations at once. -/
theorem dump_ascii_all : ∀ fuel : Nat,
    (∀ v, (dump v).length ≤ fuel → ∀ c ∈ dump v, c.toNat < 128) ∧
    (∀ xs, (dumpItems xs).length ≤ fuel →
      ∀ c ∈ dumpItems xs, c.toNat < 128) ∧
    (∀ ms, (dumpMembers ms).length ≤ fuel →
      ∀ c ∈ dumpMembers ms, c.toNat < 128) := by
  intro fuel
  induction fuel using Nat.strong_induction_on with
  | _ fuel ih =>
  refine ⟨?_, ?_, ?_⟩
  · intro v hlen c hc
    cases v with
    | null =>
      simp only [dump, List.mem_cons, List.not_mem_nil, or_false] at hc
      rcases hc with rfl | rfl | rfl | rfl <;> decide
    | bool b =>
      cases b with
      | true =>
        simp only [dump, List.mem_cons, List.not_mem_nil, or_false] at hc
        rcases hc with rfl | rfl | rfl | rfl <;> decide
      | false =>
        simp only [dump, List.mem_cons, List.not_mem_nil, or_false] at hc
        rcases hc with rfl | rfl | rfl | rfl | rfl <;> decide
    | num n => exact intRepr_ascii n c hc
    | str s => exact dumpString_ascii s c hc
    | arr xs =>
      cases xs with
      | nil =>
        simp only [dump, List.mem_cons, List.not_mem_nil, or_false] at hc
        rcases hc with rfl | rfl <;> decide
      | cons x t =>
        have hdl : (dump (JsonVal.arr (JsonItems.cons x t))).length =
            2 + (dump x).length + (dumpItems t).length := by
          simp [dump]
          omega
        simp only [dump, List.mem_cons, List.mem_append, List.not_mem_nil,
          or_false] at hc
        rcases hc with rfl | (hc | hc) | rfl
        · decide
        · exact (ih (fuel - 1) (by omega)).1 x (by omega) c hc
        · exact (ih (fuel - 1) (by omega)).2.1 t (by omega) c hc
        · decide
    | obj ms =>
      cases ms with
      | nil =>
        simp only [dump, List.mem_cons, List.not_mem_nil, or_false] at hc
        rcases hc with rfl | rfl <;> decide
      | cons k v2 t =>
        have hdl : (dump (JsonVal.obj (JsonMembers.cons k v2 t))).length =
            1 + ((dumpString k).length + (2 + ((dump v2).length +
              (dumpMembers t).length)) + 1) := by
          simp [dump]
          omega
        simp only [dump, List.mem_cons, List.mem_append, List.not_mem_nil,
          or_false] at hc
        rcases hc with rfl | (hc | rfl | rfl | hc | hc) | rfl
        · decide
        · exact dumpString_ascii k c hc
        · decide
        · decide
        · exact (ih (fuel - 1) (by omega)).1 v2 (by omega) c hc
        · exact (ih (fuel - 1) (by omega)).2.2 t (by omega) c hc
        · decide
  · intro xs hlen c hc
    cases xs with
    | nil => simp [dumpItems] at hc
    | cons x t =>
      have hdl : (dumpItems (JsonItems.cons x t)).length =
          2 + (dump x).length + (dumpItems t).length := by
        simp [dumpItems]
        omega
      simp only [dumpItems, List.mem_cons, List.mem_append,
        List.not_mem_nil, or_false] at hc
      rcases hc with rfl | rfl | hc | hc
      · decide
      · decide
      · exact (ih (fuel - 1) (by omega)).1 x (by omega) c hc
      · exact (ih (fuel - 1) (by omega)).2.1 t (by omega) c hc
  · intro ms hlen c hc
    cases ms with
    | nil => simp [dumpMembers] at hc
    | cons k v2 t =>
      have hdl : (dumpMembers (JsonMembers.cons k v2 t)).length =
          2 + ((dumpString k).length + (2 + ((dump v2).length +
            (dumpMembers t).length))) := by
        simp [dumpMembers]
        omega
      simp only [dumpMembers, List.mem_cons, List.mem_append,
        List.not_mem_nil, or_false] at hc
      rcases hc with rfl | rfl | hc | rfl | rfl | hc | hc
      · decide
      · decide
      · exact dumpString_ascii k c hc
      · decide
      · decide
      · exact (ih (fuel - 1) (by omega)).1 v2 (by omega) c hc
      · exact (ih (fuel - 1) (by omega)).2.2 t (by omega) c hc

theorem dump_ascii (v : JsonVal) : ∀ c ∈ dump v, c.toNat < 128 :=
  (dump_ascii_all (dump v).length).1 v (le_refl _)

/-- The one-byte arm of the decoder. -/
theorem utf8Decode_ascii_cons (b : Nat) (bs : List Nat) (h : b < 128) :
    utf8Decode (b :: bs) =
      (utf8Decode bs).map fun r => Char.ofNat b :: r := by
  rw [utf8Decode.eq_def]
  dsimp only
  rw [if_pos h]

/-- Strict UTF-8 decoding inverts the identity embedding of an ASCII
character list. -/
theorem utf8Decode_map_ascii : ∀ cs : List Char,
    (∀ c ∈ cs, c.toNat < 128) →
    utf8Decode (cs.map Char.toNat) = Option.some cs := by
  intro cs
  induction cs with
  | nil => intro _; rfl
  | cons c cs ih =>
    intro h
    have hc : c.toNat < 128 := h c (List.mem_cons_self c cs)
    rw [List.map_cons, utf8Decode_ascii_cons _ _ hc,
      ih (fun x hx => h x (List.mem_cons_of_mem c hx))]
    simp [Char.ofNat_toNat]

/-! ## Socket stream reads -/

theorem recvUpTo_flatten (n : Nat) (s : List (List Nat)) :
    (recvUpTo n s).1 ++ ((recvUpTo n s).2).flatten = s.flatten := by
  cases s with
  | nil => rfl
  | cons c rest =>
    simp only [recvUpTo]
    split
    · simp
    · simp [List.flatten_cons, ← List.append_assoc]

theorem recvUpTo_len_le (n : Nat) (s : List (List Nat)) :
    ((recvUpTo n s).1).length ≤ n ∨ s = [] := by
  cases s with
  | nil => exact Or.inr rfl
  | cons c rest =>
    left
    simp only [recvUpTo]
    split
    · rename_i h2
      simpa using h2
    · simp

theorem recvUpTo_ne_nil (n : Nat) (c : List Nat) (rest : List (List Nat))
    (hc : c ≠ []) (hn : 0 < n) : (recvUpTo n (c :: rest)).1 ≠ [] := by
  simp only [recvUpTo]
  split
  · exact hc
  · simp only [ne_eq, List.take_eq_nil_iff]
    push_neg
    exact ⟨by omega, hc⟩

theorem recvUpTo_chunks_ne (n : Nat) (s : List (List Nat))
    (h : ∀ c ∈ s, c ≠ []) : ∀ c ∈ (recvUpTo n s).2, c ≠ [] := by
  cases s with
  | nil => simp [recvUpTo]
  | cons c rest =>
    simp only [recvUpTo]
    split
    · intro x hx
      exact h x (List.mem_cons_of_mem c hx)
    · rename_i hlen
      intro x hx
      rcases List.mem_cons.mp hx with rfl | hx2
      · simp only [ne_eq, List.drop_eq_nil_iff]
        omega
      · exact h x (List.mem_cons_of_mem c hx2)

theorem recvBody_exact : ∀ fuel need s, (∀ c ∈ s, c ≠ []) →
    need ≤ s.flatten.length → need ≤ fuel →
    ∃ s2, recvBody fuel need s = Option.some (s.flatten.take need, s2) := by
  intro fuel
  induction fuel with
  | zero =>
    intro need s _ _ hf
    have h0 : need = 0 := by omega
    subst h0
    exact ⟨s, rfl⟩
  | succ fuel ih =>
    intro need s h hlen hf
    cases need with
    | zero => exact ⟨s, rfl⟩
    | succ need =>
      cases s with
      | nil => simp at hlen
      | cons c rest =>
        have hc : c ≠ [] := h c (List.mem_cons_self c rest)
        have hr1 : (recvUpTo (min (need + 1) 4096) (c :: rest)).1 ≠ [] :=
          recvUpTo_ne_nil _ c rest hc (by omega)
        have hflat := recvUpTo_flatten (min (need + 1) 4096) (c :: rest)
        have hlen1 : ((recvUpTo (min (need + 1) 4096) (c :: rest)).1).length
            ≤ need + 1 := by
          rcases recvUpTo_len_le (min (need + 1) 4096) (c :: rest) with
            h2 | h2
          · omega
          · cases h2
        have hrest := recvUpTo_chunks_ne (min (need + 1) 4096) (c :: rest) h
        have hpos : 0 < ((recvUpTo (min (need + 1) 4096) (c :: rest)).1).length :=
          List.length_pos.mpr hr1
        have hsplit : ((c :: rest).flatten).length =
            ((recvUpTo (min (need + 1) 4096) (c :: rest)).1).length +
            (((recvUpTo (min (need + 1) 4096) (c :: rest)).2).flatten).length := by
          rw [← hflat]
          simp
        obtain ⟨s2, hs2⟩ := ih
          ((need + 1) - ((recvUpTo (min (need + 1) 4096) (c :: rest)).1).length)
          (recvUpTo (min (need + 1) 4096) (c :: rest)).2 hrest
          (by omega) (by omega)
        refine ⟨s2, ?_⟩
        show (if (recvUpTo (min (need + 1) 4096) (c :: rest)).1 = []
          then Option.none
          else (recvBody fuel
            ((need + 1) -
              ((recvUpTo (min (need + 1) 4096) (c :: rest)).1).length)
            (recvUpTo (min (need + 1) 4096) (c :: rest)).2).map fun t =>
              ((recvUpTo (min (need + 1) 4096) (c :: rest)).1 ++ t.1, t.2)) =
          Option.some (((c :: rest).flatten).take (need + 1), s2)
        rw [if_neg hr1, hs2]
        simp only [Option.map_some']
        have hpre : (recvUpTo (min (need + 1) 4096) (c :: rest)).1 ++
            (((recvUpTo (min (need + 1) 4096) (c :: rest)).2).flatten).take
              ((need + 1) -
                ((recvUpTo (min (need + 1) 4096) (c :: rest)).1).length) =
            ((c :: rest).flatten).take (need + 1) := by
          rw [← hflat, List.take_append_eq_append_take,
            List.take_all_of_le hlen1]
        rw [hpre]

theorem recvBody_short : ∀ fuel need s, (∀ c ∈ s, c ≠ []) →
    s.flatten.length < need → recvBody fuel need s = Option.none := by
  intro fuel
  induction fuel with
  | zero =>
    intro need s _ hlen
    cases need with
    | zero => omega
    | succ need => rfl
  | succ fuel ih =>
    intro need s h hlen
    cases need with
    | zero => omega
    | succ need =>
      cases s with
      | nil => rfl
      | cons c rest =>
        have hc : c ≠ [] := h c (List.mem_cons_self c rest)
        have hr1 : (recvUpTo (min (need + 1) 4096) (c :: rest)).1 ≠ [] :=
          recvUpTo_ne_nil _ c rest hc (by omega)
        have hflat := recvUpTo_flatten (min (need + 1) 4096) (c :: rest)
        have hrest := recvUpTo_chunks_ne (min (need + 1) 4096) (c :: rest) h
        have hsplit : ((c :: rest).flatten).length =
            ((recvUpTo (min (need + 1) 4096) (c :: rest)).1).length +
            (((recvUpTo (min (need + 1) 4096) (c :: rest)).2).flatten).length := by
          rw [← hflat]
          simp
        show (if (recvUpTo (min (need + 1) 4096) (c :: rest)).1 = []
          then Option.none
          else (recvBody fuel
            ((need + 1) -
              ((recvUpTo (min (need + 1) 4096) (c :: rest)).1).length)
            (recvUpTo (min (need + 1) 4096) (c :: rest)).2).map fun t =>
              ((recvUpTo (min (need + 1) 4096) (c :: rest)).1 ++ t.1, t.2)) =
          Option.none
        rw [if_neg hr1, ih _ _ hrest (by omega)]
        rfl

/-- A first chunk of at least 4 bytes satisfies the unlooped `recv(4)`
header read. -/
theorem recvUpTo4_first (c0 : List Nat) (cr : List (List Nat))
    (h : 4 ≤ c0.length) :
    (recvUpTo 4 (c0 :: cr)).1 = c0.take 4 ∧
    ((recvUpTo 4 (c0 :: cr)).2).flatten = c0.drop 4 ++ cr.flatten := by
  simp only [recvUpTo]
  split
  · rename_i h2
    constructor
    · rw [List.take_all_of_le (by omega)]
    · rw [List.drop_eq_nil_of_le (by omega)]
      simp
  · constructor
    · rfl
    · simp [List.flatten_cons]

theorem unpack32_pack32 (n : Nat) (h : n < 4294967296) :
    unpack32 (pack32 n) = n := by
  show (n / 16777216 % 256) * 16777216 + (n / 65536 % 256) * 65536 +
    (n / 256 % 256) * 256 + n % 256 = n
  omega

/-- C6: the framed codec round-trips over a chunked transport — but only
when the transport delivers at least 4 bytes in the first read, because
the header `recv(4)` of `receive_message` is not looped.  Under that
proviso, for every encodable value and every chunking of the encoded
bytes into nonempty reads, decoding returns the original value. -/
theorem codec_roundtrip_chunked (M : JsonVal) (bytes : List Nat)
    (c0 : List Nat) (cr : List (List Nat))
    (hsend : send_message M = Option.some bytes)
    (hflat : (c0 :: cr).flatten = bytes)
    (hne : ∀ c ∈ c0 :: cr, c ≠ [])
    (hhdr : 4 ≤ c0.length) :
    receive_message (c0 :: cr) = Option.some M := by
  simp only [send_message] at hsend
  split at hsend
  case isFalse => simp at hsend
  case isTrue h32 =>
  injection hsend with hb
  subst hb
  obtain ⟨h14, h2f⟩ := recvUpTo4_first c0 cr hhdr
  have hp4 : (pack32 (((dump M).map Char.toNat)).length).length = 4 := rfl
  have hc0take : c0.take 4 = pack32 (((dump M).map Char.toNat)).length := by
    have h1 : ((c0 :: cr).flatten).take 4 = c0.take 4 := by
      simp only [List.flatten_cons]
      rw [List.take_append_eq_append_take]
      have h0 : 4 - c0.length = 0 := by omega
      rw [h0]
      simp
    have h2 : ((c0 :: cr).flatten).take 4 =
        pack32 (((dump M).map Char.toNat)).length := by
      rw [hflat, List.take_append_eq_append_take,
        List.take_all_of_le (le_of_eq hp4)]
      have h0 : 4 - (pack32 (((dump M).map Char.toNat)).length).length = 0 := by
        rw [hp4]
      rw [h0]
      simp
    rw [← h1, h2]
  have hh1 : (recvUpTo 4 (c0 :: cr)).1 =
      pack32 (((dump M).map Char.toNat)).length := by
    rw [h14, hc0take]
  have hbody : ((recvUpTo 4 (c0 :: cr)).2).flatten =
      (dump M).map Char.toNat := by
    rw [h2f]
    have h1 : c0.drop 4 ++ cr.flatten = ((c0 :: cr).flatten).drop 4 := by
      simp only [List.flatten_cons]
      rw [List.drop_append_eq_append_drop]
      have h0 : 4 - c0.length = 0 := by omega
      rw [h0]
      simp
    rw [h1, hflat, List.drop_append_eq_append_drop,
      List.drop_eq_nil_of_le (le_of_eq hp4)]
    have h0 : 4 - (pack32 (((dump M).map Char.toNat)).length).length = 0 := by
      rw [hp4]
    rw [h0]
    simp
  show (if (recvUpTo 4 (c0 :: cr)).1 = [] then Option.none
    else if ((recvUpTo 4 (c0 :: cr)).1).length ≠ 4 then Option.none
    else
      match recvBody (unpack32 ((recvUpTo 4 (c0 :: cr)).1))
          (unpack32 ((recvUpTo 4 (c0 :: cr)).1))
          ((recvUpTo 4 (c0 :: cr)).2) with
      | Option.none => Option.none
      | Option.some (body, _) =>
        match utf8Decode body with
        | Option.none => Option.none
        | Option.some cs => jsonLoads cs) = Option.some M
  rw [hh1]
  rw [if_neg (by simp [pack32])]
  rw [if_neg (by simp [pack32])]
  rw [unpack32_pack32 _ h32]
  obtain ⟨s2, hs2⟩ := recvBody_exact (((dump M).map Char.toNat)).length
    (((dump M).map Char.toNat)).length ((recvUpTo 4 (c0 :: cr)).2)
    (recvUpTo_chunks_ne 4 (c0 :: cr) hne) (by rw [hbody]) (le_refl _)
  rw [hs2, hbody, List.take_length]
  show (match utf8Decode ((dump M).map Char.toNat) with
    | Option.none => Option.none
    | Option.some cs => jsonLoads cs) = Option.some M
  rw [utf8Decode_map_ascii (dump M) (dump_ascii M)]
  show jsonLoads (dump M) = Option.some M
  exact jsonLoads_dump M

theorem codec_roundtrip_chunked_witness :
    receive_message [[0, 0, 0, 19, 123],
      [34, 97, 99, 116, 105, 111, 110, 34, 58, 32,
       34, 104, 101, 108, 108, 111, 34, 125]] =
      Option.some (JsonVal.obj (JsonMembers.cons "action"
        (JsonVal.str "hello") JsonMembers.nil)) :=
  codec_roundtrip_chunked
    (JsonVal.obj (JsonMembers.cons "action" (JsonVal.str "hello")
      JsonMembers.nil))
    [0, 0, 0, 19, 123, 34, 97, 99, 116, 105, 111, 110, 34, 58, 32,
     34, 104, 101, 108, 108, 111, 34, 125]
    [0, 0, 0, 19, 123]
    [[34, 97, 99, 116, 105, 111, 110, 34, 58, 32,
      34, 104, 101, 108, 108, 111, 34, 125]]
    (by rfl) (by rfl) (by decide) (by decide)

/-- C6 counterexample: the same well-formed frame decodes under one
chunking and fails under another — the first read returns only 2 of the
4 header bytes and `receive_message` gives up instead of looping — so
the round trip does not hold regardless of the split. -/
theorem codec_split_header_counterexample :
    send_message (JsonVal.obj JsonMembers.nil) =
      Option.some [0, 0, 0, 2, 123, 125] ∧
    [[0, 0], [0, 2, 123, 125]].flatten = [0, 0, 0, 2, 123, 125] ∧
    receive_message [[0, 0], [0, 2, 123, 125]] = Option.none :=
  ⟨rfl, rfl, rfl⟩

/-- C7: every early-close of the input stream — before the header, with
a short header read, or before the body completes — makes
`receive_message` return `None`, and a decode error (a body that is not
valid UTF-8) returns `None` as well: the two indications are the same
value, not distinct ones. -/
theorem receive_none_on_eos_and_decode_error :
    (receive_message [] = Option.none) ∧
    (∀ c0 cr, c0 ≠ [] → c0.length < 4 →
      receive_message (c0 :: cr) = Option.none) ∧
    (∀ c0 cr, 4 ≤ c0.length → (∀ c ∈ c0 :: cr, c ≠ []) →
      ((c0 :: cr).flatten).length < 4 + unpack32 (c0.take 4) →
      receive_message (c0 :: cr) = Option.none) ∧
    (∀ c0 cr body, 4 ≤ c0.length → (∀ c ∈ c0 :: cr, c ≠ []) →
      (c0 :: cr).flatten = c0.take 4 ++ body →
      unpack32 (c0.take 4) = body.length →
      utf8Decode body = Option.none →
      receive_message (c0 :: cr) = Option.none) := by
  refine ⟨rfl, ?_, ?_, ?_⟩
  · intro c0 cr h1 h2
    have hru : recvUpTo 4 (c0 :: cr) = (c0, cr) := by
      simp only [recvUpTo]
      rw [if_pos (by omega)]
    show (if (recvUpTo 4 (c0 :: cr)).1 = [] then Option.none
      else if ((recvUpTo 4 (c0 :: cr)).1).length ≠ 4 then Option.none
      else
        match recvBody (unpack32 ((recvUpTo 4 (c0 :: cr)).1))
            (unpack32 ((recvUpTo 4 (c0 :: cr)).1))
            ((recvUpTo 4 (c0 :: cr)).2) with
        | Option.none => Option.none
        | Option.some (body, _) =>
          match utf8Decode body with
          | Option.none => Option.none
          | Option.some cs => jsonLoads cs) = Option.none
    rw [hru]
    dsimp only
    rw [if_neg h1, if_pos (by omega)]
  · intro c0 cr h4 hne hlen
    obtain ⟨h14, h2f⟩ := recvUpTo4_first c0 cr h4
    have hlen4 : (c0.take 4).length = 4 := by
      simp only [List.length_take]
      omega
    have ht : c0.take 4 ≠ [] := by
      intro hc
      rw [hc] at hlen4
      simp at hlen4
    have hshort : (((recvUpTo 4 (c0 :: cr)).2).flatten).length <
        unpack32 (c0.take 4) := by
      rw [h2f]
      simp only [List.flatten_cons, List.length_append,
        List.length_drop] at hlen ⊢
      omega
    show (if (recvUpTo 4 (c0 :: cr)).1 = [] then Option.none
      else if ((recvUpTo 4 (c0 :: cr)).1).length ≠ 4 then Option.none
      else
        match recvBody (unpack32 ((recvUpTo 4 (c0 :: cr)).1))
            (unpack32 ((recvUpTo 4 (c0 :: cr)).1))
            ((recvUpTo 4 (c0 :: cr)).2) with
        | Option.none => Option.none
        | Option.some (body, _) =>
          match utf8Decode body with
          | Option.none => Option.none
          | Option.some cs => jsonLoads cs) = Option.none
    rw [h14, if_neg ht, if_neg (by simp [hlen4]),
      recvBody_short _ _ _ (recvUpTo_chunks_ne 4 (c0 :: cr) hne) hshort]
  · intro c0 cr body h4 hne hfl hup hdec
    obtain ⟨h14, h2f⟩ := recvUpTo4_first c0 cr h4
    have hlen4 : (c0.take 4).length = 4 := by
      simp only [List.length_take]
      omega
    have ht : c0.take 4 ≠ [] := by
      intro hc
      rw [hc] at hlen4
      simp at hlen4
    have hbody : ((recvUpTo 4 (c0 :: cr)).2).flatten = body := by
      rw [h2f]
      have h1 : c0.drop 4 ++ cr.flatten = ((c0 :: cr).flatten).drop 4 := by
        simp only [List.flatten_cons]
        rw [List.drop_append_eq_append_drop]
        have h0 : 4 - c0.length = 0 := by omega
        rw [h0]
        simp
      rw [h1, hfl, List.drop_append_eq_append_drop,
        List.drop_eq_nil_of_le (le_of_eq hlen4)]
      rw [show 4 - (c0.take 4).length = 0 from by rw [hlen4]]
      simp
    show (if (recvUpTo 4 (c0 :: cr)).1 = [] then Option.none
      else if ((recvUpTo 4 (c0 :: cr)).1).length ≠ 4 then Option.none
      else
        match recvBody (unpack32 ((recvUpTo 4 (c0 :: cr)).1))
            (unpack32 ((recvUpTo 4 (c0 :: cr)).1))
            ((recvUpTo 4 (c0 :: cr)).2) with
        | Option.none => Option.none
        | Option.some (b2, _) =>
          match utf8Decode b2 with
          | Option.none => Option.none
          | Option.some cs => jsonLoads cs) = Option.none
    rw [h14, if_neg ht, if_neg (by simp [hlen4]), hup]
    obtain ⟨s2, hs2⟩ := recvBody_exact body.length body.length
      ((recvUpTo 4 (c0 :: cr)).2) (recvUpTo_chunks_ne 4 (c0 :: cr) hne)
      (le_of_eq (by rw [hbody])) (le_refl _)
    rw [hs2, hbody, List.take_length]
    show (match utf8Decode body with
      | Option.none => Option.none
      | Option.some cs => jsonLoads cs) = Option.none
    rw [hdec]

theorem receive_none_on_eos_and_decode_error_witness :
    receive_message [[0, 0], [0]] = Option.none ∧
    receive_message [[0, 0, 0, 5], [104]] = Option.none ∧
    receive_message [[0, 0, 0, 1], [255]] = Option.none :=
  ⟨receive_none_on_eos_and_decode_error.2.1 [0, 0] [[0]]
    (by decide) (by decide),
   receive_none_on_eos_and_decode_error.2.2.1 [0, 0, 0, 5] [[104]]
    (by decide) (by decide) (by decide),
   receive_none_on_eos_and_decode_error.2.2.2 [0, 0, 0, 1] [[255]] [255]
    (by decide) (by decide) (by rfl) (by decide) (by rfl)⟩

/-- C7 counterexample: the value returned after an end-of-stream (the
socket closes before any header byte) and the value returned for a
decode error (a one-byte body `0xFF` that is not valid UTF-8) are the
same `None` — the code has no distinct end-of-stream indication. -/
theorem eos_equals_decode_error_counterexample :
    receive_message [] = Option.none ∧
    receive_message [[0, 0, 0, 1], [255]] = Option.none :=
  ⟨rfl, rfl⟩
